import Mathlib

/-!
Shallow embedding of the invoice-pipeline core
(`src/invoice_pipeline/{uom,parsers,lookup_agent,pipeline,models}.py`).

Python floats are modelled by `ℚ`; Python `str` by `String`/`List Char`
(ASCII case conversion); `Optional[T]` by `Option T`.  Each regular
expression from the source is compiled by hand into a scanning function;
the patterns involved never need general backtracking (maximal munch for
`\d+`/`\s*` is exact because the following literal can never absorb a
digit or a space, and every alternation in the source is prefix-disjoint),
so the scanners implement exactly the Python `re.search` semantics.
-/

-- The four basic `Rat` operations are `@[irreducible]` in Batteries;
-- re-opening them lets `decide`/`rfl` evaluate the embedding on
-- concrete inputs (the kernel ignores reducibility anyway).
attribute [local semireducible] Rat.mul Rat.inv Rat.add Rat.sub

namespace InvoicePipeline

/-! ## Python string primitives -/

/-- Python `str.isspace` set used by `\s` and `str.strip`. -/
def isPySpace (c : Char) : Bool :=
  c = ' ' || c = '\t' || c = '\n' || c = '\r' || c = '\x0b' || c = '\x0c'

/-- `\w`: alphanumeric or underscore (ASCII model). -/
def isWordChar (c : Char) : Bool := c.isAlphanum || c = '_'

/-- ASCII upper-casing of a character, as Python `str.upper` on ASCII. -/
def upChar (c : Char) : Char := c.toUpper

def lowChar (c : Char) : Char := c.toLower

def pyUpperL (s : List Char) : List Char := s.map upChar

def pyLowerL (s : List Char) : List Char := s.map lowChar

/-- Python `str.strip()` (no argument): trim whitespace on both ends. -/
def pyStripL (s : List Char) : List Char :=
  ((s.dropWhile isPySpace).reverse.dropWhile isPySpace).reverse

def pyUpper (s : String) : String := ⟨pyUpperL s.data⟩

def pyLower (s : String) : String := ⟨pyLowerL s.data⟩

def pyStrip (s : String) : String := ⟨pyStripL s.data⟩

/-- Python `a or ""` for an optional string. -/
def pyOrStr (a : Option String) : String := (a.filter (· ≠ "")).getD ""

/-- Python `a or b` on optional strings (`None` and `""` are falsy). -/
def pyOrStrOpt (a b : Option String) : Option String :=
  match a with
  | some s => if s = "" then b else some s
  | none => b

/-- Python `a or b` on optional ints (`None` and `0` are falsy). -/
def pyOrOptInt (a b : Option ℤ) : Option ℤ :=
  match a with
  | some n => if n = 0 then b else some n
  | none => b

/-- Python `str.split(sep)` with a one-character separator, keeping
empty pieces (structural recursion, unlike `String.splitOn`). -/
def splitOnCharAux (sep : Char) : List Char → List Char → List (List Char)
  | [], acc => [acc.reverse]
  | c :: t, acc =>
    if c = sep then acc.reverse :: splitOnCharAux sep t []
    else splitOnCharAux sep t (c :: acc)

def pySplitChar (s : String) (sep : Char) : List String :=
  (splitOnCharAux sep s.data []).map (fun l => ⟨l⟩)

/-- Substring containment, Python `sub in s`. -/
def containsSubL (s sub : List Char) : Bool :=
  sub.isPrefixOf s ||
    match s with
    | [] => false
    | _ :: t => containsSubL t sub

def containsSub (s sub : String) : Bool := containsSubL s.data sub.data

def digitsToNat (ds : List Char) : ℕ :=
  ds.foldl (fun n c => 10 * n + (c.toNat - '0'.toNat)) 0

/-- Greedy `\d+`: split a string into its leading digit run and the rest. -/
def spanDigits (s : List Char) : List Char × List Char :=
  (s.takeWhile Char.isDigit, s.dropWhile Char.isDigit)

/-- Greedy `\s*`. -/
def dropSpaces (s : List Char) : List Char := s.dropWhile isPySpace

theorem dropWhileLenLe (p : Char → Bool) (t : List Char) :
    (t.dropWhile p).length ≤ t.length := by
  induction t with
  | nil => simp [List.dropWhile]
  | cons a l ih =>
    simp only [List.dropWhile]
    split
    · simpa using Nat.le_succ_of_le ih
    · simp

/-- Case-insensitive literal match; returns the rest of the input. -/
def matchLit : List Char → List Char → Option (List Char)
  | [], s => some s
  | _ :: _, [] => none
  | p :: ps, c :: cs => if upChar c = p then matchLit ps cs else none

/-- Ordered alternation of case-insensitive literals (all the alternations
in the source are prefix-disjoint, so ordered choice = first that fits). -/
def matchAnyLit (alts : List (List Char)) (s : List Char) : Option (List Char) :=
  match alts with
  | [] => none
  | a :: rest =>
    match matchLit a s with
    | some r => some r
    | none => matchAnyLit rest s

/-- `re.search`: try the pattern at every start position, leftmost first. -/
def scanFirst (f : List Char → Option α) : List Char → Option α
  | [] => f []
  | s@(_ :: t) =>
    match f s with
    | some v => some v
    | none => scanFirst f t

/-- Word boundary `\b` after a word character: next char absent or non-word. -/
def boundaryAfter (s : List Char) : Bool :=
  match s with
  | [] => true
  | c :: _ => !isWordChar c

/-! ## Pack expression patterns (`uom.py` lines 86–102)

Each `tryX` matches its pattern anchored at the start of the input and
returns the captured number (or `()` for the boolean patterns). -/

/-- `PACK_PR_DP = (\d+)\s*PR\s*/\s*DP` (and `PACK_PR_BG` with `BG`). -/
def tryPrContainer (container : List Char) (s : List Char) : Option ℕ :=
  let (ds, r1) := spanDigits s
  if ds.isEmpty then none else
  match matchLit ['P', 'R'] (dropSpaces r1) with
  | none => none
  | some r2 =>
    match dropSpaces r2 with
    | '/' :: r3 =>
      if (matchLit container (dropSpaces r3)).isSome then some (digitsToNat ds) else none
    | _ => none

/-- `PACK_1_PR = 1\s*/\s*PR\b`. -/
def try1Pr (s : List Char) : Option Unit :=
  match s with
  | '1' :: r1 =>
    match dropSpaces r1 with
    | '/' :: r2 =>
      match matchLit ['P', 'R'] (dropSpaces r2) with
      | some r3 => if boundaryAfter r3 then some () else none
      | none => none
    | _ => none
  | _ => none

/-- Denominator tokens of `PACK_NUM_DENOM`
(`CS|BX|BOX|CT|CASE|PK|PAC|DP|BG|RL|DZ|EA|PR|DISP?\.?|BG\.?`); the
trailing optional `P`/`.` parts cannot affect whether a match exists,
so each alternative reduces to its mandatory prefix. -/
def numDenomTokens : List (List Char) :=
  [['C','S'], ['B','X'], ['B','O','X'], ['C','T'], ['C','A','S','E'],
   ['P','K'], ['P','A','C'], ['D','P'], ['B','G'], ['R','L'],
   ['D','Z'], ['E','A'], ['P','R'], ['D','I','S']]

/-- `PACK_NUM_DENOM = (\d+)\s*/\s*(?:CS|…)`. -/
def tryNumDenom (s : List Char) : Option ℕ :=
  let (ds, r1) := spanDigits s
  if ds.isEmpty then none else
  match dropSpaces r1 with
  | '/' :: r2 =>
    if (matchAnyLit numDenomTokens (dropSpaces r2)).isSome then some (digitsToNat ds) else none
  | _ => none

/-- `PACK_PK_NUM = (?:PK|PAC)\s*(\d+)\b`. -/
def tryPkNum (s : List Char) : Option ℕ :=
  match matchAnyLit [['P','K'], ['P','A','C']] s with
  | none => none
  | some r1 =>
    let (ds, r2) := spanDigits (dropSpaces r1)
    if ds.isEmpty then none else
    if boundaryAfter r2 then some (digitsToNat ds) else none

/-- `PACK_DENOM_NUM = (?:CS|BX|BOX|CT|CASE|DP|BG|RL)\s*/\s*(\d+)`. -/
def tryDenomNum (s : List Char) : Option ℕ :=
  match matchAnyLit
      [['C','S'], ['B','X'], ['B','O','X'], ['C','T'], ['C','A','S','E'],
       ['D','P'], ['B','G'], ['R','L']] s with
  | none => none
  | some r1 =>
    match dropSpaces r1 with
    | '/' :: r2 =>
      let (ds, _) := spanDigits (dropSpaces r2)
      if ds.isEmpty then none else some (digitsToNat ds)
    | _ => none

/-- `PACK_NUM_EA = (\d+)\s*EA(?:\s|/|$|[^\w])`; the tail is equivalent to
"end of input or a non-word character". -/
def tryNumEa (s : List Char) : Option ℕ :=
  let (ds, r1) := spanDigits s
  if ds.isEmpty then none else
  match matchLit ['E', 'A'] (dropSpaces r1) with
  | some r2 => if boundaryAfter r2 then some (digitsToNat ds) else none
  | none => none

/-- `PACK_NUM_PR = (\d+)\s*PR(?:\s+[A-Z]|\s*$|\s*/)` (IGNORECASE makes
`[A-Z]` match any ASCII letter; `\s*$` also matches a trailing newline,
which `dropSpaces` absorbs because `\n` is whitespace). -/
def tryNumPr (s : List Char) : Option ℕ :=
  let (ds, r1) := spanDigits s
  if ds.isEmpty then none else
  match matchLit ['P', 'R'] (dropSpaces r1) with
  | none => none
  | some r2 =>
    let tailA : Bool :=
      match r2 with
      | c :: _ =>
        if isPySpace c then
          match dropSpaces r2 with
          | d :: _ => d.isAlpha
          | [] => false
        else false
      | [] => false
    let tailB : Bool := (dropSpaces r2).isEmpty
    let tailC : Bool :=
      match dropSpaces r2 with
      | '/' :: _ => true
      | _ => false
    if tailA || tailB || tailC then some (digitsToNat ds) else none

/-- `PACK_BX_CS_NUM = (?:BX|CS|CT|CASE)\s*(\d+)\b`. -/
def tryBxCsNum (s : List Char) : Option ℕ :=
  match matchAnyLit [['B','X'], ['C','S'], ['C','T'], ['C','A','S','E']] s with
  | none => none
  | some r1 =>
    let (ds, r2) := spanDigits (dropSpaces r1)
    if ds.isEmpty then none else
    if boundaryAfter r2 then some (digitsToNat ds) else none

/-- `PACK_100_DISP = 100\s*/\s*DISP?\.?` / `PACK_100_BG = 100\s*/\s*BG\.?`. -/
def try100Container (container : List Char) (s : List Char) : Option Unit :=
  match matchLit ['1','0','0'] s with
  | none => none
  | some r1 =>
    match dropSpaces r1 with
    | '/' :: r2 =>
      if (matchLit container (dropSpaces r2)).isSome then some () else none
    | _ => none

/-- `parse_pack_from_text` (`uom.py` lines 105–148). -/
def parse_pack_from_text (text : Option String) : Option ℤ :=
  match text with
  | none => none
  | some t =>
    if t = "" then none else
    let s := t.data
    match scanFirst (tryPrContainer ['D','P']) s with
    | some n => some (2 * (n : ℤ))
    | none =>
    match scanFirst (tryPrContainer ['B','G']) s with
    | some n => some (2 * (n : ℤ))
    | none =>
    if (scanFirst try1Pr s).isSome then some 2 else
    match scanFirst tryNumDenom s with
    | some n => some (n : ℤ)
    | none =>
    match scanFirst tryPkNum s with
    | some n => some (n : ℤ)
    | none =>
    match scanFirst tryDenomNum s with
    | some n => some (n : ℤ)
    | none =>
    match scanFirst tryNumEa s with
    | some n => some (n : ℤ)
    | none =>
    match scanFirst tryNumPr s with
    | some n => some (2 * (n : ℤ))
    | none =>
    match scanFirst tryBxCsNum s with
    | some n => some (n : ℤ)
    | none =>
    if (scanFirst (try100Container ['D','I','S']) s).isSome
        || (scanFirst (try100Container ['B','G']) s).isSome then some 100
    else none

/-! ## Numeric primitives shared by the embedding -/

/-- Python `int()` on a float: truncation toward zero. -/
def pyTrunc (q : ℚ) : ℤ := if 0 ≤ q then ⌊q⌋ else ⌈q⌉

/-- Python `round()` to an integer: round half to even (banker's rounding;
the binary-float representation error of CPython is not modelled). -/
def roundHalfEven (q : ℚ) : ℤ :=
  if q - (⌊q⌋ : ℚ) < 1 / 2 then ⌊q⌋
  else if 1 / 2 < q - (⌊q⌋ : ℚ) then ⌊q⌋ + 1
  else if 2 ∣ ⌊q⌋ then ⌊q⌋ else ⌊q⌋ + 1

/-- Python `round(x, d)`. -/
def pyRound (q : ℚ) (d : ℕ) : ℚ :=
  (roundHalfEven (q * (10 : ℚ) ^ d) : ℚ) / (10 : ℚ) ^ d

/-! ## UOM category sets and normalization (`uom.py` lines 19–81, 151–237) -/

def UOM_EA_SAFE : List String :=
  ["EA", "EACH", "UNIT", "UN", "PC", "PCS", "PIECE", "ITEM"]

/-- `UOM_FIXED_MULT`: UOM → (multiplier to EA, confidence). -/
def UOM_FIXED_MULT : List (String × ℚ × ℚ) :=
  [("PR", 2, 95/100), ("PAIR", 2, 95/100),
   ("DZ", 12, 95/100), ("DOZ", 12, 95/100), ("DOZEN", 12, 95/100),
   ("GR", 144, 95/100), ("GROSS", 144, 95/100)]

def UOM_PACK_CONTAINER : List String :=
  ["PK", "PACK", "PAC", "BX", "BOX", "CS", "CASE", "CTN", "CT", "CARTON",
   "BG", "BAG", "RL", "ROL", "ROLL", "DP", "DISP", "DISPLAY", "SET", "KIT"]

def UOM_COUNT : List String := ["COUNT", "CNT"]

def UOM_MEASURABLE : List String :=
  ["FT", "IN", "M", "CM", "MM", "YD", "METER", "METRE",
   "SF", "SQFT", "SQFT", "M2", "SQ", "SQM",
   "LB", "LBS", "OZ", "KG", "G", "GRAM", "GM",
   "GAL", "GALLON", "QT", "PT", "L", "LITER", "LITRE", "ML",
   "HR", "HRS", "HOUR", "MIN", "MINUTE"]

def UOM_ALIASES : List (String × String) :=
  [("EA", "EA"), ("EACH", "EA"), ("UNIT", "EA"), ("UN", "EA"), ("PC", "EA"),
   ("PCS", "EA"), ("PIECE", "EA"), ("ITEM", "EA"),
   ("PR", "PR"), ("PAIR", "PR"),
   ("DZ", "DZ"), ("DOZ", "DZ"), ("DOZEN", "DZ"),
   ("GR", "GROSS"), ("GROSS", "GROSS"),
   ("CS", "CS"), ("CASE", "CS"),
   ("BX", "BX"), ("BOX", "BX"),
   ("PK", "PK"), ("PACK", "PK"), ("PAC", "PK"),
   ("CTN", "CT"), ("CT", "CT"), ("CARTON", "CT"),
   ("BG", "BG"), ("BAG", "BG"),
   ("RL", "RL"), ("ROL", "RL"), ("ROLL", "RL"),
   ("DP", "DP"), ("DISP", "DP"), ("DISPLAY", "DP")]

/-- Membership of an optional key in a string set (`None in s` is false). -/
def memS (k : Option String) (l : List String) : Bool :=
  match k with
  | some s => l.contains s
  | none => false

/-- `_normalize_uom_key` (`uom.py` lines 76–81). -/
def normalize_uom_key (raw : String) : Option String :=
  let r := pyUpper (pyStrip raw)
  if r = "" then none
  else some (((UOM_ALIASES.lookup r).getD r))

/-- `is_measurable_uom` (`uom.py` lines 151–154). -/
def is_measurable_uom (raw : Option String) : Bool :=
  match normalize_uom_key (pyOrStr raw) with
  | some key => UOM_MEASURABLE.contains key
  | none => false

/-- Result tuple of `normalize_uom`:
`(canonical_uom, pack_quantity, confidence, convertible)`. -/
structure NormUom where
  canonical_uom : String
  pack_quantity : Option ℤ
  confidence : ℚ
  convertible : Bool
deriving Repr, DecidableEq

/-- Fixed-multiplier lookup (`UOM_FIXED_MULT[key]`). -/
def fixedMultOf (k : Option String) : Option (ℚ × ℚ) :=
  match k with
  | some s => UOM_FIXED_MULT.lookup s
  | none => none

/-- `normalize_uom` (`uom.py` lines 157–200). -/
def normalize_uom (original_uom description : Option String) : NormUom :=
  let key := normalize_uom_key (pyUpper (pyStrip (pyOrStr original_uom)))
  let desc := pyStrip (pyOrStr description)
  let pack_from_desc :=
    pyOrOptInt (parse_pack_from_text (some desc))
      (parse_pack_from_text (some (pyOrStr original_uom)))
  if memS key UOM_MEASURABLE then
    ⟨"EA", none, 0, false⟩
  else if memS key UOM_EA_SAFE || key == some "EA" then
    ⟨"EA", some ((pyOrOptInt pack_from_desc (some 1)).getD 1), 1, true⟩
  else
  match fixedMultOf key with
  | some (mult, conf) =>
      let pack := match pack_from_desc with
        | some p => p
        | none => pyTrunc mult
      ⟨"EA", some pack, conf, true⟩
  | none =>
  if memS key UOM_PACK_CONTAINER then
    match pack_from_desc with
    | some p => ⟨"EA", some p, 85/100, true⟩
    | none => ⟨"EA", none, 1/2, true⟩
  else if memS key UOM_COUNT then
    match pack_from_desc with
    | some p => ⟨"EA", some p, 7/10, true⟩
    | none => ⟨"EA", none, 2/5, true⟩
  else
    match pack_from_desc with
    | some p => ⟨"EA", some p, 3/5, true⟩
    | none => ⟨"EA", none, 2/5, true⟩

/-- `price_per_base_unit` (`uom.py` lines 203–237).
Returns `(price_per_ea, conversion_unsafe)`. -/
def price_per_base_unit (extended_price : Option ℚ) (quantity : ℚ)
    (original_uom : Option String) (pack_quantity : Option ℤ)
    (convertible : Bool) : Option ℚ × Bool :=
  match extended_price with
  | none => (none, true)
  | some e =>
    if !convertible || e ≤ 0 || quantity ≤ 0 then (none, true) else
    let key := normalize_uom_key (pyUpper (pyStrip (pyOrStr original_uom)))
    let bu : ℚ × Bool :=
      match pack_quantity with
      | some p =>
        if 0 < p then (quantity * (p : ℚ), false)
        else
          match fixedMultOf key with
          | some (mult, _) => (quantity * mult, false)
          | none =>
            if memS key UOM_PACK_CONTAINER || memS key UOM_COUNT then (quantity, true)
            else (quantity, false)
      | none =>
        match fixedMultOf key with
        | some (mult, _) => (quantity * mult, false)
        | none =>
          if memS key UOM_PACK_CONTAINER || memS key UOM_COUNT then (quantity, true)
          else (quantity, false)
    if bu.1 ≤ 0 then (none, true)
    else (some (e / bu.1), bu.2)

/-! ## Lookup agent (`lookup_agent.py`) -/

/-- `LookupResult` dataclass (`lookup_agent.py` lines 19–26). -/
structure LookupResult where
  canonical_uom : String
  detected_pack_quantity : Option ℤ
  confidence : ℚ
  escalation : Bool
deriving Repr, DecidableEq

/-- `parse_pack_from_description` delegates to `parse_pack_from_text`
(`lookup_agent.py` lines 28–31). -/
def parse_pack_from_description (description : Option String) : Option ℤ :=
  parse_pack_from_text description

/-- Boolean search for `\d+\s*/\s*` (the trailing `\s*` always matches). -/
def hasNumSlash (s : List Char) : Bool :=
  (scanFirst (fun t =>
    let (ds, r) := spanDigits t
    if ds.isEmpty then none else
    match dropSpaces r with
    | '/' :: _ => some ()
    | _ => none) s).isSome

/-- Boolean search for `PK\s*\d+|\d+\s*PR` (IGNORECASE). -/
def hasPkNumOrNumPr (s : List Char) : Bool :=
  (scanFirst (fun t =>
    match matchLit ['P','K'] t with
    | some r1 =>
      if (spanDigits (dropSpaces r1)).1.isEmpty then
        -- fall through to the second alternative at this position
        let (ds, r) := spanDigits t
        if ds.isEmpty then none else
        if (matchLit ['P','R'] (dropSpaces r)).isSome then some () else none
      else some ()
    | none =>
      let (ds, r) := spanDigits t
      if ds.isEmpty then none else
      if (matchLit ['P','R'] (dropSpaces r)).isSome then some () else none) s).isSome

/-- `should_trigger_lookup` (`lookup_agent.py` lines 34–74). -/
def should_trigger_lookup (original_uom : Option String)
    (pack_from_parsing : Option ℤ) (description : Option String) : Bool :=
  if is_measurable_uom original_uom then false else
  let raw := pyUpper (pyStrip (pyOrStr original_uom))
  let desc := pyStrip (pyOrStr description)
  if pack_from_parsing.any (0 < ·) then false
  else if UOM_EA_SAFE.contains raw
      && !(containsSub (pyUpper desc) "/" || containsSub (pyUpper desc) "PK"
            || containsSub (pyUpper desc) "PER") then false
  else if (raw == "PR" || raw == "PAIR") && pack_from_parsing == none
      && !containsSub desc "/" then false
  else if raw == "DZ" || raw == "DOZEN" then false
  else if raw = "" then true
  else if UOM_PACK_CONTAINER.contains raw || UOM_COUNT.contains raw then
    pack_from_parsing == none
  else if hasNumSlash desc.data || hasPkNumOrNumPr desc.data then
    pack_from_parsing == none
  else false

/-- JSON scalar produced by the external capability; the response objects
of the batch call are modelled with scalar field values (container values
inside a response object are not modelled). -/
inductive JVal where
  | jnum (q : ℚ)
  | jstr (s : String)
  | jbool (b : Bool)
  | jnull
deriving Repr, DecidableEq

/-- One decoded object of the JSON array replied by the capability.
A missing key is `none`; `canonical_uom` is modelled as a string when
present (its value is stored verbatim by the Python code). -/
structure JObj where
  canonical_uom : Option String := none
  detected_pack_quantity : Option JVal := none
  confidence : Option JVal := none
  escalation : Option JVal := none
deriving Repr, DecidableEq

/-- Python `float()` applied to a decoded JSON scalar: numbers pass
through, booleans become 0/1, numeric strings parse, `null` raises
(modelled as `none`).  String parsing is handled by the token parser
defined with the table parser below, so here only the scalar cases that
the batch loop can meet are needed; a non-numeric string raises. -/
def pyFloatOfChars (s : List Char) : Option ℚ :=
  -- strict decimal grammar [sign](digits [. digits*] | . digits+)[(e|E)[sign]digits+]
  let core : List Char → Option (ℚ × List Char) := fun t =>
    let (d1, r1) := spanDigits t
    match r1 with
    | '.' :: r2 =>
      let (d2, r3) := spanDigits r2
      if d1.isEmpty && d2.isEmpty then none
      else some ((digitsToNat (d1 ++ d2) : ℚ) / (10 : ℚ) ^ d2.length, r3)
    | _ =>
      if d1.isEmpty then none else some ((digitsToNat d1 : ℚ), r1)
  let signed : List Char → Option (ℚ × List Char) := fun t =>
    match t with
    | '-' :: t' => (core t').map (fun p => (-p.1, p.2))
    | '+' :: t' => core t'
    | _ => core t
  let t := dropSpaces s
  match signed t with
  | none => none
  | some (m, r) =>
    match r with
    | 'e' :: r1 | 'E' :: r1 =>
      let expP : List Char → Option (ℤ × List Char) := fun u =>
        match u with
        | '-' :: u' =>
          let (ds, r') := spanDigits u'
          if ds.isEmpty then none else some (-(digitsToNat ds : ℤ), r')
        | '+' :: u' =>
          let (ds, r') := spanDigits u'
          if ds.isEmpty then none else some ((digitsToNat ds : ℤ), r')
        | _ =>
          let (ds, r') := spanDigits u
          if ds.isEmpty then none else some ((digitsToNat ds : ℤ), r')
      match expP r1 with
      | some (ex, r2) =>
        if (dropSpaces r2).isEmpty then some (m * (10 : ℚ) ^ ex) else none
      | none => none
    | _ => if (dropSpaces r).isEmpty then some m else none

def pyFloatJ : JVal → Option ℚ
  | .jnum q => some q
  | .jstr s => pyFloatOfChars s.data
  | .jbool b => some (if b then 1 else 0)
  | .jnull => none

def pyBoolJ : JVal → Bool
  | .jnum q => q ≠ 0
  | .jstr s => s ≠ ""
  | .jbool b => b
  | .jnull => false

/-- Batch request entry: `(idx, description, item_number, original_uom)`. -/
abbrev BatchItem := ℕ × String × Option String × Option String

/-- External state seen by `_batch_call_llm_for_uom`: no client, a failed
call/JSON decode, or a decoded response (`none` when the decoded value is
not a list). -/
inductive BatchEnv where
  | noClient
  | callFailed
  | response (data : Option (List JObj))
deriving Repr, DecidableEq

/-- Python `dict` as an insertion-ordered association list:
assignment replaces in place or appends. -/
def dictInsert (d : List (ℕ × α)) (k : ℕ) (v : α) : List (ℕ × α) :=
  if (d.lookup k).isSome then
    d.map (fun p => if p.1 = k then (k, v) else p)
  else d ++ [(k, v)]

/-- The low-confidence escalated default `LookupResult("EA", None, 0.3, True)`. -/
def defaultLookup : LookupResult := ⟨"EA", none, 3/10, true⟩

/-- `{idx: default for idx, *_ in items}` as a dict-building loop. -/
def defaultBatchAux (items : List BatchItem) (acc : List (ℕ × LookupResult)) :
    List (ℕ × LookupResult) :=
  match items with
  | [] => acc
  | it :: rest => defaultBatchAux rest (dictInsert acc it.1 defaultLookup)

def defaultBatchMap (items : List BatchItem) : List (ℕ × LookupResult) :=
  defaultBatchAux items []

/-- The response-building loop of `_batch_call_llm_for_uom`
(lines 225–242): a `float()` failure on a confidence raises and aborts
the whole attempt. -/
def batchBuild (items : List BatchItem) (arr : List JObj) (i : ℕ)
    (acc : List (ℕ × LookupResult)) : Except Unit (List (ℕ × LookupResult)) :=
  match items with
  | [] => .ok acc
  | it :: rest =>
    if h : i < arr.length then
      let o := arr.get ⟨i, h⟩
      -- pq = o.get("detected_pack_quantity"); JSON null decodes to Python None
      let pq : Option JVal :=
        match o.detected_pack_quantity with
        | some .jnull => none
        | v => v
      let pack_val : Option ℤ := pq.bind (fun v => (pyFloatJ v).map pyTrunc)
      match (o.confidence.map pyFloatJ).getD (some (1/2)) with
      | none => .error ()   -- float(o.get("confidence", 0.5)) raised
      | some conf =>
        let res : LookupResult :=
          ⟨o.canonical_uom.getD "EA", pack_val, conf,
           (o.escalation.map pyBoolJ).getD true⟩
        batchBuild rest arr (i + 1) (dictInsert acc it.1 res)
    else
      batchBuild rest arr (i + 1) (dictInsert acc it.1 defaultLookup)

/-- The final completion loop (lines 243–245): every requested index not
yet present gets the default. -/
def batchFill (items : List BatchItem) (acc : List (ℕ × LookupResult)) :
    List (ℕ × LookupResult) :=
  match items with
  | [] => acc
  | it :: rest =>
    if (acc.lookup it.1).isSome then batchFill rest acc
    else batchFill rest (dictInsert acc it.1 defaultLookup)

/-- `_batch_call_llm_for_uom` (`lookup_agent.py` lines 175–248), with the
external call abstracted into `BatchEnv`. -/
def batch_call_llm_for_uom (items : List BatchItem) (env : BatchEnv) :
    List (ℕ × LookupResult) :=
  match env with
  | .noClient => defaultBatchMap items
  | .callFailed => defaultBatchMap items
  | .response data =>
    if items.isEmpty then defaultBatchMap items else
    let arr := data.getD []
    match batchBuild items arr 0 [] with
    | .error _ => defaultBatchMap items
    | .ok d => batchFill items d

/-! ## Data model (`models.py`) -/

/-- `RawLineItem` (`models.py` lines 10–19). -/
structure RawLineItem where
  description : Option String := none
  item_number : Option String := none
  manufacturer_part : Option String := none
  quantity : ℚ := 1
  original_uom : Option String := none
  unit_price : Option ℚ := none
  extended_price : Option ℚ := none
  line_confidence : ℚ := 1
deriving Repr, DecidableEq, Inhabited

/-- `LineItemOutput` (`models.py` lines 22–54).  The pydantic range
validation of `confidence_score` is not modelled (a violation raises in
Python and no output is produced). -/
structure LineItemOutput where
  supplier_name : String
  item_description : String
  manufacturer_part_number : Option String
  original_uom : Option String
  detected_pack_quantity : Option ℤ
  canonical_base_uom : String
  price_per_base_unit : Option ℚ
  confidence_score : ℚ
  escalation_flag : Bool
deriving Repr, DecidableEq, Inhabited

/-- `InvoiceResult` (`models.py` lines 57–62); the source-file name comes
from the filesystem path and is not modelled, the metadata map is reduced
to the parser tag it records. -/
structure InvoiceResult where
  supplier_name : String
  line_items : List LineItemOutput
  parser_used : String
deriving Repr, DecidableEq

/-- `resolve_uom_agent_batch` (`lookup_agent.py` lines 251–283). -/
def resolve_uom_agent_batch (raw_items : List RawLineItem)
    (use_lookup_agent : Bool) (env : BatchEnv) : List (ℕ × LookupResult) :=
  let step := fun (st : List BatchItem × List (ℕ × LookupResult))
      (p : ℕ × RawLineItem) =>
    let (i, raw) := p
    let desc := pyOrStr raw.description
    let pack_from_desc := parse_pack_from_text (some desc)
    if !use_lookup_agent
        || !should_trigger_lookup raw.original_uom pack_from_desc (some desc) then
      st
    else
      match parse_pack_from_description (some desc) with
      | some pack => (st.1, dictInsert st.2 i ⟨"EA", some pack, 85/100, false⟩)
      | none =>
        (st.1 ++ [(i, desc, pyOrStrOpt raw.item_number raw.manufacturer_part,
                   raw.original_uom)], st.2)
  let st := raw_items.enum.foldl step ([], [])
  if st.1.isEmpty then st.2
  else (batch_call_llm_for_uom st.1 env).foldl
    (fun d p => dictInsert d p.1 p.2) st.2

/-! ## Generic table parser (`parsers.py`)

Modelling notes for Python `float()` strings: the grammar implemented in
`pyFloatOfChars` covers sign, decimal point and exponent; the `inf`/`nan`
literals and digit-group underscores accepted by CPython are not
modelled. -/

/-- `_parse_float` (`parsers.py` lines 13–20):
strip everything but digits, `.` and `-`, then `float()`. -/
def parse_float_chars (s : List Char) : Option ℚ :=
  if s.isEmpty then none else
  pyFloatOfChars (s.filter (fun c => c.isDigit || c = '.' || c = '-'))

/-- `UOM_PATTERNS` (`parsers.py` lines 24–28), longer tokens first. -/
def UOM_PATTERNS : List String :=
  ["DOZEN", "CARTON", "DISPLAY", "PACKAGE", "BOTTLE",
   "EA", "EACH", "BX", "BOX", "CS", "CASE", "CT", "PR", "PAIR",
   "DZ", "DOZ", "PK", "PAC", "DP", "BG", "BAG", "RL", "ROLL", "CTN"]

/-- Word-bounded occurrence of an upper-case literal in an upper-cased
text (`re.search(rf"\b{uom}\b", text_upper)`). -/
def containsWordAux (pat : List Char) (prevIsWord : Bool) : List Char → Bool
  | [] => false
  | c :: t =>
    (!prevIsWord &&
      (match matchLit pat (c :: t) with
       | some r => boundaryAfter r
       | none => false))
    || containsWordAux pat (isWordChar c) t

/-- `_extract_uom` (`parsers.py` lines 31–37). -/
def extract_uom (text : String) : Option String :=
  UOM_PATTERNS.find? (fun u => containsWordAux u.data false (pyUpperL text.data))

def skuUomOnly : List String :=
  ["EA", "BX", "CS", "CT", "PR", "DZ", "PK", "DP", "BG", "RL", "UN"]

def isSkuMiddleChar (c : Char) : Bool :=
  c.isAlphanum || c = '-' || c = '/' || c = '.'

/-- `_looks_like_sku` (`parsers.py` lines 40–49).  The two anchored
IGNORECASE patterns reduce to character-class checks. -/
def looks_like_sku (s : String) : Bool :=
  let cs := s.data
  if s = "" || s.length < 3 || s.length > 40 then false
  else if skuUomOnly.contains (pyUpper s) then false
  else
    -- ^[A-Z0-9][A-Z0-9\-/.]*[A-Z0-9]$  (needs ≥ 2 chars)
    (match cs, cs.reverse with
     | a :: _ :: _, z :: _ =>
       a.isAlphanum && z.isAlphanum &&
         (((cs.drop 1).reverse.drop 1).all isSkuMiddleChar)
     | _, _ => false)
    -- ^[A-Z0-9\-]+$
    || (!cs.isEmpty && cs.all (fun c => c.isAlphanum || c = '-'))

/-- Numeric-column collection of `_parse_line_item_from_parts`
(`parsers.py` lines 55–66): integer tokens in `[1, 999999]` and decimal
tokens with a literal point in `[0.001, 999999]`, each with its column
index. -/
def collectNums (parts : List String) : List (ℕ × ℤ) × List (ℕ × ℚ) :=
  parts.enum.foldl (fun (st : List (ℕ × ℤ) × List (ℕ × ℚ)) p =>
    let p_clean := pyStripL (p.2.data.filter (· ≠ ','))
    match pyFloatOfChars p_clean with
    | none => st
    | some v =>
      let ints :=
        if v.den = 1 ∧ 1 ≤ v ∧ v ≤ 999999 then st.1 ++ [(p.1, v.num)] else st.1
      let decs :=
        if p_clean.contains '.' ∧ 1/1000 ≤ v ∧ v ≤ 999999 then st.2 ++ [(p.1, v)]
        else st.2
      (ints, decs)) ([], [])

/-- Descending order by `(value, index)` — Python
`sorted(decimals, key=lambda x: (-x[1], -x[0]))`; all indices are
distinct, so the order is unique. -/
def decKeyBefore (a b : ℕ × ℚ) : Bool :=
  b.2 < a.2 || (a.2 = b.2 && b.1 < a.1)

def insertDec (x : ℕ × ℚ) : List (ℕ × ℚ) → List (ℕ × ℚ)
  | [] => [x]
  | y :: ys => if decKeyBefore x y then x :: y :: ys else y :: insertDec x ys

def sortDecDesc (l : List (ℕ × ℚ)) : List (ℕ × ℚ) := l.foldr insertDec []

/-- Extended/unit price choice (`parsers.py` lines 71–87); returns
`(extended, unit_price)`.  `decimals` is already in column order, which
is what `sorted(..., key=lambda x: x[0])` yields. -/
def choosePrices (decimals : List (ℕ × ℚ)) (pph : Bool) : ℚ × ℚ :=
  if pph ∧ 2 ≤ decimals.length then
    match decimals.reverse with
    | a :: b :: _ => (a.2, b.2 / 100)
    | _ => (0, 0)   -- unreachable: length ≥ 2
  else
    match sortDecDesc decimals with
    | [] => (0, 0)  -- unreachable: the caller guarantees decimals ≠ []
    | e :: rest =>
      let ext := e.2
      match rest.find? (fun d => 1/1000 ≤ d.2 && d.2 ≤ 99999 && |d.2 - ext| > 1/100) with
      | some d => (ext, d.2)
      | none => (ext, ext)

/-- Quantity choice (`parsers.py` lines 89–94): first integer column
before the last three columns whose value differs from the truncated
extended and unit prices; default 1. -/
def chooseQty (integers : List (ℕ × ℤ)) (nparts : ℕ)
    (extended unit_price : ℚ) : ℤ :=
  match integers with
  | [] => 1
  | (i, v) :: rest =>
    if (i : ℤ) < (nparts : ℤ) - 3 ∧ v ≠ pyTrunc extended ∧ v ≠ pyTrunc unit_price
    then v
    else chooseQty rest nparts extended unit_price

/-- State of the description/MPN/UOM scan (`parsers.py` lines 105–117). -/
structure DescScan where
  desc_parts : List String := []
  mpn : Option String := none
  uom : Option String := none

/-- Fullmatch of `^[\d,.\$]+$`. -/
def isCurrencyNumFull (s : String) : Bool :=
  !s.data.isEmpty && s.data.all (fun c => c.isDigit || c = ',' || c = '.' || c = '$')

/-- Fullmatch of `^\d+\.?\d*$`. -/
def isNumTokenFull (s : List Char) : Bool :=
  let (d1, r1) := spanDigits s
  if d1.isEmpty then false else
  match r1 with
  | [] => true
  | '.' :: r2 => (r2.dropWhile Char.isDigit).isEmpty
  | _ => false

/-- One step of the description/MPN/UOM scan. -/
def descStep (nparts : ℕ) (st : DescScan) (p : ℕ × String) : DescScan :=
  let q := pyStrip p.2
  -- `if not p or re.match(r"^\d+\.?\d*$", p.replace(",", "")): continue`
  -- (the `$` makes this a full match of the comma-stripped token)
  if q = "" || isNumTokenFull (q.data.filter (· ≠ ',')) then st
  else
    let uom' := if (extract_uom q).isSome && st.uom.isNone then extract_uom q else st.uom
    let mpn' := if looks_like_sku q && st.mpn.isNone && (p.1 : ℤ) < (nparts : ℤ) - 3
                then some q else st.mpn
    let dps' := if q.length > 2 && !isCurrencyNumFull q
                then st.desc_parts ++ [q] else st.desc_parts
    ⟨dps', mpn', uom'⟩

/-- Python `" ".join`. -/
def joinSp (l : List String) : String := String.intercalate " " l

/-- `_parse_line_item_from_parts` (`parsers.py` lines 52–132). -/
def parse_line_item_from_parts (parts : List String) (pph : Bool) :
    Option RawLineItem :=
  let (integers, decimals) := collectNums parts
  if decimals.isEmpty then none else
  let ep := choosePrices decimals pph
  let qty := chooseQty integers parts.length ep.1 ep.2
  -- `if is_price_per_hundred and len(decimals) < 2: unit_price /= 100`
  -- (`unit_price or 0` only renames 0 to 0)
  let up1 := if pph ∧ decimals.length < 2 then ep.2 / 100 else ep.2
  let ext1 :=
    if 0 < qty ∧ up1 ≠ 0 then
      let expected := (qty : ℚ) * up1
      if 0 < ep.1 ∧ |ep.1 - expected| / max ep.1 (1/100) > 1/20 then expected
      else ep.1
    else ep.1
  let scan := parts.enum.foldl (descStep parts.length) {}
  let desc :=
    if scan.desc_parts ≠ [] then joinSp (scan.desc_parts.take 5)
    else joinSp ((parts.take 4).filter (fun p => pyStrip p ≠ ""))
  let uom :=
    match scan.uom with
    | some u => some u
    | none =>
      match extract_uom desc with
      | some u => some u
      | none => extract_uom (joinSp parts)
  some
    { description := some (if desc ≠ "" then ⟨desc.data.take 200⟩ else "Item")
      item_number := scan.mpn
      manufacturer_part := scan.mpn
      quantity := (qty : ℚ)
      original_uom := uom
      unit_price := if up1 ≠ 0 then some (pyRound up1 4) else none
      extended_price := some (pyRound ext1 2)
      line_confidence := 3/4 }

/-- Python `str.split()` with no argument: whitespace runs, no empties. -/
def splitWsAux : List Char → List Char → List (List Char)
  | [], acc => if acc.isEmpty then [] else [acc.reverse]
  | c :: t, acc =>
    if isPySpace c then
      if acc.isEmpty then splitWsAux t [] else acc.reverse :: splitWsAux t []
    else splitWsAux t (c :: acc)

def pySplitWs (s : String) : List String :=
  (splitWsAux s.data []).map (fun l => ⟨l⟩)

/-- `_parse_line_space_separated` (`parsers.py` lines 135–140). -/
def parse_line_space_separated (line : String) (pph : Bool) : Option RawLineItem :=
  let parts := pySplitWs line
  if parts.length < 4 then none else parse_line_item_from_parts parts pph

/-- `_parse_line_pipe_separated` (`parsers.py` lines 143–148). -/
def parse_line_pipe_separated (line : String) (pph : Bool) : Option RawLineItem :=
  let parts := (pySplitChar line '|').map pyStrip
  if parts.length < 3 then none else parse_line_item_from_parts parts pph

/-! ## Fallback regex pass and `extract_line_items` (`parsers.py` 151–227) -/

/-- `re.findall(r"[\d,]+\.?\d*", line)`: left-to-right non-overlapping
greedy matches, as a state machine over (current token, seen-dot). -/
def findallNumTokAux : List Char → Option (List Char × Bool) → List (List Char)
  | [], st =>
    (match st with
     | some (tok, _) => [tok.reverse]
     | none => [])
  | c :: t, none =>
    if c.isDigit || c = ',' then findallNumTokAux t (some ([c], false))
    else findallNumTokAux t none
  | c :: t, some (tok, false) =>
    if c.isDigit || c = ',' then findallNumTokAux t (some (c :: tok, false))
    else if c = '.' then findallNumTokAux t (some (c :: tok, true))
    else tok.reverse :: findallNumTokAux t none
  | c :: t, some (tok, true) =>
    if c.isDigit then findallNumTokAux t (some (c :: tok, true))
    else if c = ',' then tok.reverse :: findallNumTokAux t (some ([c], false))
    else tok.reverse :: findallNumTokAux t none

def findallNumTok (s : List Char) : List (List Char) := findallNumTokAux s none

/-- `re.findall(r"\b\d+\b", line)`: maximal digit runs with word
boundaries on both sides. -/
def findallWordIntsAux (prevWord : Bool) : List Char → List (List Char)
  | [] => []
  | c :: t =>
    if !prevWord && c.isDigit then
      let run := c :: t.takeWhile Char.isDigit
      let rest := t.dropWhile Char.isDigit
      if boundaryAfter rest then run :: findallWordIntsAux true rest
      else findallWordIntsAux (isWordChar c) t
    else findallWordIntsAux (isWordChar c) t
termination_by s => s.length
decreasing_by
  all_goals simp_wf
  all_goals exact Nat.lt_succ_of_le (dropWhileLenLe _ _)

/-- Python `max` over a non-empty float list (ties are equal in `ℚ`). -/
def pyMaxList : List ℚ → ℚ
  | [] => 0          -- unreachable: callers guarantee non-emptiness
  | x :: xs => xs.foldl max x

/-- `re.split(r"\s{2,}|\t", line)`: a delimiter is a maximal run of two
or more whitespace characters, or a lone tab. -/
def splitMsAux (acc : List Char) : List Char → List (List Char)
  | [] => [acc.reverse]
  | [c] =>
    if isPySpace c then
      if c = '\t' then [acc.reverse, []] else [(c :: acc).reverse]
    else [(c :: acc).reverse]
  | c :: d :: t =>
    if isPySpace c then
      if isPySpace d then acc.reverse :: splitMsAux [] ((d :: t).dropWhile isPySpace)
      else if c = '\t' then acc.reverse :: splitMsAux [] (d :: t)
      else splitMsAux (c :: acc) (d :: t)
    else splitMsAux (c :: acc) (d :: t)
termination_by s => s.length
decreasing_by
  all_goals simp_wf
  all_goals exact Nat.lt_succ_of_le (dropWhileLenLe _ _)

/-- The fallback regex-based parse of a line that the column strategies
could not handle (`parsers.py` lines 188–219).  `line` is the stripped
physical line. -/
def fallbackParse (line : String) (pph : Bool) : Option RawLineItem :=
  let decimals := (findallNumTok line.data).filterMap (fun n =>
    match parse_float_chars n with
    | some v => if v ≠ 0 ∧ 1/100 ≤ v ∧ v ≤ 999999 then some v else none
    | none => none)
  if decimals.length < 2 then none else
  let extended := pyMaxList decimals
  let unit_price :=
    ((decimals.find? (fun d => d ≠ extended && 1/1000 ≤ d && d ≤ 99999)).getD extended)
  let qty :=
    (((findallWordIntsAux false line.data).map (fun ds => (digitsToNat ds : ℤ))).find?
      (fun v => 1 ≤ v && v ≤ 99999 && v ≠ pyTrunc extended)).getD 1
  let up1 := if pph then unit_price / 100 else unit_price
  let ext1 := if pph then (qty : ℚ) * up1 else extended
  let desc_parts := ((splitMsAux [] line.data).map (fun l => (⟨l⟩ : String))).filter
    (fun p => p ≠ "" && !isNumTokenFull (p.data.filter (· ≠ ',')) && p.length > 2)
  let desc := if desc_parts ≠ [] then joinSp (desc_parts.take 4)
    else ⟨line.data.take 80⟩
  some
    { description := some ⟨desc.data.take 200⟩
      item_number := none
      manufacturer_part := none
      quantity := (qty : ℚ)
      original_uom := extract_uom line
      unit_price := some (pyRound up1 4)
      extended_price := some (pyRound ext1 2)
      line_confidence := 13/20 }

def skip_keywords : List String :=
  ["invoice", "page", "remit", "sold to", "ship to", "sub-total", "subtotal",
   "total", "amount due", "please pay", "thank you", "customer order"]

/-- `re.search(r"\d+\.\d{2}", s)`: a digit, a point, two digits. -/
def hasPriceTok : List Char → Bool
  | a :: b :: c :: d :: t =>
    (a.isDigit && b = '.' && c.isDigit && d.isDigit) || hasPriceTok (b :: c :: d :: t)
  | _ => false

/-- `"price per hundred"`-marker detection (`parsers.py` lines 160–165). -/
def isPricePerHundred (text : String) : Bool :=
  containsSub (pyLower text) "price per hundred"
  || containsSub (pyLower text) "price/hundred"
  || containsSub (pyLower text) "price / hundred"
  || containsSub (pyLower text) "per hundred"

/-- The per-line body of `extract_line_items` (lines 168–219), up to but
not including the dedup/price filter: skip rules, column strategy choice,
fallback pass. -/
def lineCandidate (pph : Bool) (rawLine : String) : Option RawLineItem :=
  let line := pyStrip rawLine
  if line = "" || line.length < 8 then none else
  if (skip_keywords.any (fun kw => containsSub (pyLower line) kw))
      && !hasPriceTok line.data then none else
  let words := pySplitWs line
  if words.length ≤ 3 && !words.any (fun w => hasPriceTok w.data) then none else
  let parsed :=
    if line.data.count '|' ≥ 2 then parse_line_pipe_separated line pph
    else parse_line_space_separated line pph
  match parsed with
  | some it => some it
  | none => fallbackParse line pph

/-- The dedup key `(parsed.quantity, parsed.extended_price)`. -/
def itemKey (it : RawLineItem) : ℚ × Option ℚ := (it.quantity, it.extended_price)

/-- Truthiness-and-positivity filter
`parsed and parsed.extended_price and parsed.extended_price > 0`. -/
def keepsPrice (it : RawLineItem) : Bool :=
  match it.extended_price with
  | some p => 0 < p
  | none => false

/-- One iteration of the `extract_line_items` loop: per-line parse, the
price filter, and the `(quantity, extended_price)` dedup via `seen`. -/
def extractStep (pph : Bool) (st : List (ℚ × Option ℚ) × List RawLineItem)
    (l : String) : List (ℚ × Option ℚ) × List RawLineItem :=
  match lineCandidate pph l with
  | none => st
  | some parsed =>
    if keepsPrice parsed then
      if st.1.contains (itemKey parsed) then st
      else (itemKey parsed :: st.1, st.2 ++ [parsed])
    else st

/-- `extract_line_items` (`parsers.py` lines 151–227). -/
def extract_line_items (text : String) : List RawLineItem :=
  ((pySplitChar text '\n').foldl (extractStep (isPricePerHundred text)) ([], [])).2

/-! ## Orchestrator (`pipeline.py`)

PDF text extraction, supplier detection and the two LLM extraction
capabilities are external collaborators; their outcomes for the given
document are carried in `Caps`. -/

/-- External-capability outcomes and switches of `process_invoice_pdf`. -/
structure Caps where
  use_lookup_agent : Bool := true
  use_llm_fallback : Bool := true
  use_llm_primary : Bool := true
  /-- `detect_supplier(text)` (keyword matcher, external to the core). -/
  hint_supplier : String := "Unknown Supplier"
  /-- `extract_all_via_llm(text, hint)`: `(supplier_name, raw_items)`. -/
  llm_primary : String × List RawLineItem := ("", [])
  /-- `extract_line_items_via_llm(text, supplier)`: `(raw_items, supplier)`. -/
  llm_fallback : List RawLineItem × String := ([], "")
  /-- State of the auxiliary-resolution capability. -/
  lookup_env : BatchEnv := .noClient

/-- Branch selection of the per-line finalization (`pipeline.py` lines
76–111): yields `(canonical_uom, pack_qty, confidence, escalate,
price_per_ea)` before the global confidence rule. -/
def finalizeCore (lookup_results : List (ℕ × LookupResult)) (i : ℕ)
    (raw : RawLineItem) : String × Option ℤ × ℚ × Bool × Option ℚ :=
  let desc := pyOrStr raw.description
  let original_uom := raw.original_uom
  let pack_from_desc :=
    pyOrOptInt (parse_pack_from_text (some desc)) (parse_pack_from_description (some desc))
  if is_measurable_uom original_uom then
    ("EA", none, 3/10, true, none)
  else
    match lookup_results.lookup i with
    | some lk =>
      let confidence := lk.confidence * raw.line_confidence
      let pr := price_per_base_unit raw.extended_price raw.quantity original_uom
        lk.detected_pack_quantity true
      (lk.canonical_uom, lk.detected_pack_quantity, confidence,
       lk.escalation || pr.2, pr.1)
    | none =>
      let nu := normalize_uom original_uom (some desc)
      let pack_qty :=
        if nu.pack_quantity.isNone && pack_from_desc.isSome then pack_from_desc
        else nu.pack_quantity
      let confidence := nu.confidence * raw.line_confidence
      let raw_uom := pyUpper (pyStrip (pyOrStr original_uom))
      let esc0 := nu.canonical_uom == "EA" && pack_qty.isNone
        && UOM_PACK_CONTAINER.contains raw_uom
      let pr := price_per_base_unit raw.extended_price raw.quantity original_uom
        pack_qty nu.convertible
      (nu.canonical_uom, pack_qty, confidence, esc0 || pr.2, pr.1)

/-- The per-line finalization of `process_invoice_pdf`
(`pipeline.py` lines 70–128). -/
def finalizeLine (supplier : String) (lookup_results : List (ℕ × LookupResult))
    (i : ℕ) (raw : RawLineItem) : LineItemOutput :=
  let fin := finalizeCore lookup_results i raw
  let escalate := if fin.2.2.1 < 3/5 then true else fin.2.2.2.1
  { supplier_name := supplier
    item_description := pyOrStr raw.description
    manufacturer_part_number := pyOrStrOpt raw.manufacturer_part raw.item_number
    original_uom := raw.original_uom
    detected_pack_quantity := fin.2.1
    canonical_base_uom := if fin.1 ≠ "" then fin.1 else "EA"
    price_per_base_unit := fin.2.2.2.2.map (fun p => pyRound p 4)
    confidence_score := pyRound (min 1 fin.2.2.1) 2
    escalation_flag := escalate }

/-- `process_invoice_pdf` (`pipeline.py` lines 31–135). -/
def process_invoice_pdf (text : String) (caps : Caps) : InvoiceResult :=
  let hint := caps.hint_supplier
  let primary :=
    if caps.use_llm_primary then (caps.llm_primary.1, caps.llm_primary.2, "llm_primary")
    else (hint, [], "llm_primary")
  let chosen :=
    if primary.2.1.length = 0 then
      let generic := extract_line_items text
      if generic.length = 0 ∧ caps.use_llm_fallback then
        -- the fallback's supplier name is taken even when it returns no
        -- items; only the parser tag is conditional on non-emptiness
        (caps.llm_fallback.2, caps.llm_fallback.1,
          if caps.llm_fallback.1 ≠ [] then "llm_fallback" else "generic")
      else (hint, generic, "generic")
    else primary
  let supplier := chosen.1
  let raw_items := chosen.2.1
  let lookup_results :=
    resolve_uom_agent_batch raw_items caps.use_lookup_agent caps.lookup_env
  { supplier_name := supplier
    line_items := raw_items.enum.map (fun p => finalizeLine supplier lookup_results p.1 p.2)
    parser_used := chosen.2.2 }

/-! ## Specification-side reformulations

These definitions restate parts of the specification independently of the
loop structure of the code; the claim theorems compare them with the
embedded functions. -/

/-- A line's parse outcome surviving the positive-price filter. -/
def lineKept (pph : Bool) (l : String) : Option RawLineItem :=
  match lineCandidate pph l with
  | some it => if keepsPrice it then some it else none
  | none => none

/-- All candidate items of a document in input order, before
deduplication. -/
def lineCandidates (text : String) : List RawLineItem :=
  (pySplitChar text '\n').filterMap (lineKept (isPricePerHundred text))

/-- Keep an item only if no earlier item had its
`(quantity, extended_price)` key. -/
def firstStep (acc : List RawLineItem) (x : RawLineItem) : List RawLineItem :=
  if acc.any (fun y => itemKey y == itemKey x) then acc else acc ++ [x]

/-- First-occurrence deduplication by key, preserving order: the
specification's reading of the dedup rule. -/
def firstByKey (l : List RawLineItem) : List RawLineItem := l.foldl firstStep []

/-- The claim's wording of the column-parser quantity rule, with
"rounded" read as round-to-nearest: the first integer column before the
last three columns whose value differs from the *rounded* extended and
unit prices; default 1. -/
def chooseQtySpecRounded (integers : List (ℕ × ℤ)) (nparts : ℕ)
    (extended unit_price : ℚ) : ℤ :=
  ((integers.find? (fun p => (p.1 : ℤ) < (nparts : ℤ) - 3
      && p.2 ≠ roundHalfEven extended && p.2 ≠ roundHalfEven unit_price)).map
    Prod.snd).getD 1

/-- The quantity rule with truncation (`int()`), as the code computes it,
stated via `List.find?` rather than the loop. -/
def chooseQtySpecTrunc (integers : List (ℕ × ℤ)) (nparts : ℕ)
    (extended unit_price : ℚ) : ℤ :=
  ((integers.find? (fun p => (p.1 : ℤ) < (nparts : ℤ) - 3
      && p.2 ≠ pyTrunc extended && p.2 ≠ pyTrunc unit_price)).map
    Prod.snd).getD 1

/-! ## Concrete instances used by counterexamples and witnesses -/

/-- A candidate line with unit `"CS"` and no pack pattern in its text. -/
def rawCS : RawLineItem :=
  { description := some "WIDGET", original_uom := some "CS", quantity := 2,
    extended_price := some 10, line_confidence := 3/4 }

/-- LLM-primary extraction returned `rawCS`; the auxiliary resolution
capability is disabled (`use_lookup_agent=False`). -/
def capsCS : Caps :=
  { use_lookup_agent := false, use_llm_fallback := false, use_llm_primary := true,
    hint_supplier := "H", llm_primary := ("S", [rawCS]),
    llm_fallback := ([], ""), lookup_env := .noClient }

/-- A low-confidence candidate line (`line_confidence = 0.5`, unknown
unit), for exercising the confidence invariant. -/
def rawLowConf : RawLineItem :=
  { description := some "WIDGET", quantity := 1,
    extended_price := some 10, line_confidence := 1/2 }

def capsLowConf : Caps :=
  { use_lookup_agent := false, use_llm_fallback := false, use_llm_primary := true,
    hint_supplier := "H", llm_primary := ("S", [rawLowConf]),
    llm_fallback := ([], ""), lookup_env := .noClient }

/-- A column list whose extended price `2.90` truncates to `2` but
rounds to `3`, separating the two readings of the quantity rule. -/
def partsC9 : List String := ["AB", "2", "xx", "yy", "zz", "2.90"]

/-! ## Claims -/

/-- **C4.** The pack-quantity resolver satisfies the five reference cases,
and on `"1/PR"` the dedicated `1/PR` pattern (worth 2) takes precedence
over the generic `<n>/<container>` pattern (which alone would yield 1). -/
theorem C4_pack_resolver_reference_cases :
    parse_pack_from_text (some "25/CS") = some 25 ∧
    parse_pack_from_text (some "1/PR") = some 2 ∧
    parse_pack_from_text (some "100/DISP") = some 100 ∧
    parse_pack_from_text (some "PK10") = some 10 ∧
    parse_pack_from_text (some "no numbers here") = none ∧
    scanFirst tryNumDenom "1/PR".data = some 1 := by
  refine ⟨by decide, by decide, by decide, by decide, by decide, by decide⟩

/-- **C2, counterexample.** Called with unit `"LB"` and the default
`convertible=True`, `price_per_base_unit` does *not* return
`(None, True)`: the measurable check lives in `normalize_uom`, not in
`price_per_base_unit`, so `(10, 2, "LB", None)` yields `(5.0, False)`. -/
theorem C2_counterexample :
    price_per_base_unit (some 10) 2 (some "LB") none true = (some 5, false) ∧
    price_per_base_unit (some 10) 2 (some "LB") none true ≠ (none, true) := by
  refine ⟨by decide, by decide⟩

/-- **C2, amended.** `normalize_uom` marks `"LB"` non-convertible, and
whenever that flag is passed on, `price_per_base_unit` returns
`(None, True)` regardless of extended price, quantity and pack. -/
theorem C2_lb_price_with_convertible_flag (E : Option ℚ) (Q : ℚ)
    (P : Option ℤ) (desc : Option String) :
    (normalize_uom (some "LB") desc).convertible = false ∧
    price_per_base_unit E Q (some "LB") P false = (none, true) := by
  constructor
  · have h : normalize_uom_key (pyUpper (pyStrip (pyOrStr (some "LB")))) = some "LB" := by
      decide
    have hm : memS (some "LB") UOM_MEASURABLE = true := by decide
    simp [normalize_uom, h, hm]
  · cases E with
    | none => rfl
    | some e => simp [price_per_base_unit]

/-- **C5, counterexample.** `parse_pack_from_text "0/CS"` returns `0`,
which is neither `None` nor positive. -/
theorem C5_counterexample :
    parse_pack_from_text (some "0/CS") = some 0 ∧ ¬ (0 : ℤ) > 0 := by
  refine ⟨by decide, by decide⟩

/-- **C5, amended.** `parse_pack_from_text` returns either `None` or a
non-negative integer: it never returns a negative pack quantity, but it
can return zero (e.g. on `"0/CS"`). -/
theorem C5_pack_nonneg (t : Option String) (n : ℤ)
    (h : parse_pack_from_text t = some n) : 0 ≤ n := by
  unfold parse_pack_from_text at h
  rcases t with _ | s
  · exact absurd h (by simp)
  · simp only [] at h
    by_cases hs : s = ""
    · rw [if_pos hs] at h; exact absurd h (by simp)
    · rw [if_neg hs] at h
      repeat' split at h
      all_goals simp_all
      all_goals omega

/-- **C5, witness.** -/
theorem C5_pack_nonneg_witness :
    parse_pack_from_text (some "25/CS") = some 25 ∧ (0 : ℤ) ≤ 25 :=
  ⟨by decide, C5_pack_nonneg (some "25/CS") 25 (by decide)⟩

/-- **C8.** The escalation policy never requests a lookup for a
measurable unit (`"LB"`), and never when a positive pack quantity is
already known from parsing. -/
theorem C8_no_lookup_measurable_or_packed :
    (∀ (pack : Option ℤ) (desc : Option String),
      should_trigger_lookup (some "LB") pack desc = false) ∧
    (∀ (uom desc : Option String) (pack : ℤ), 0 < pack →
      should_trigger_lookup uom (some pack) desc = false) := by
  constructor
  · intro pack desc
    have hm : is_measurable_uom (some "LB") = true := by decide
    simp [should_trigger_lookup, hm]
  · intro uom desc pack hpack
    by_cases hm : is_measurable_uom uom
    · simp [should_trigger_lookup, hm]
    · have hp : (some pack).any (0 < ·) = true := by
        simpa [Option.any] using hpack
      simp [should_trigger_lookup, hm, hp]

/-- **C8, witness.** -/
theorem C8_no_lookup_witness :
    should_trigger_lookup (some "LB") none (some "100/CS") = false ∧
    should_trigger_lookup (some "CS") (some 25) (some "25/CS") = false :=
  ⟨C8_no_lookup_measurable_or_packed.1 none (some "100/CS"),
   C8_no_lookup_measurable_or_packed.2 (some "CS") (some "25/CS") 25 (by decide)⟩

/-! ### C1: the confidence invariant -/

theorem roundHalfEven_ge_floor (q : ℚ) : ⌊q⌋ ≤ roundHalfEven q := by
  unfold roundHalfEven
  repeat' split
  all_goals omega

/-- If `3/5 ≤ q` then the two-decimal rounding of `q` is still `≥ 3/5`. -/
theorem pyRound2_ge_point6 (q : ℚ) (h : 3/5 ≤ q) : 3/5 ≤ pyRound q 2 := by
  have h60q : (60 : ℚ) ≤ q * (10 : ℚ) ^ 2 := by nlinarith
  have h60 : (60 : ℤ) ≤ ⌊q * (10 : ℚ) ^ 2⌋ := Int.le_floor.mpr (by exact_mod_cast h60q)
  have h2 : (60 : ℤ) ≤ roundHalfEven (q * (10 : ℚ) ^ 2) :=
    le_trans h60 (roundHalfEven_ge_floor _)
  unfold pyRound
  rw [le_div_iff₀ (by positivity)]
  calc (3:ℚ)/5 * (10 : ℚ) ^ 2 = 60 := by norm_num
  _ ≤ ((roundHalfEven (q * (10 : ℚ) ^ 2) : ℤ) : ℚ) := by exact_mod_cast h2

/-- Low stored confidence forces escalation in a finalized line. -/
theorem finalizeLine_conf_escalates (supplier : String)
    (lr : List (ℕ × LookupResult)) (i : ℕ) (raw : RawLineItem)
    (h : (finalizeLine supplier lr i raw).confidence_score < 3/5) :
    (finalizeLine supplier lr i raw).escalation_flag = true := by
  by_cases hc : (finalizeCore lr i raw).2.2.1 < 3/5
  · simp [finalizeLine, hc]
  · exfalso
    push_neg at hc
    have hmin : 3/5 ≤ min 1 (finalizeCore lr i raw).2.2.1 :=
      le_min (by norm_num) hc
    have := pyRound2_ge_point6 _ hmin
    have hscore : (finalizeLine supplier lr i raw).confidence_score
        = pyRound (min 1 (finalizeCore lr i raw).2.2.1) 2 := rfl
    rw [hscore] at h
    linarith

/-- **C1.** Every line item produced by `process_invoice_pdf` with a
stored confidence score below 0.6 carries `escalation_flag = true`,
whatever the extraction path, lookup outcome and inputs were. -/
theorem C1_low_confidence_escalates (text : String) (caps : Caps)
    (out : LineItemOutput) (hmem : out ∈ (process_invoice_pdf text caps).line_items)
    (hconf : out.confidence_score < 3/5) : out.escalation_flag = true := by
  unfold process_invoice_pdf at hmem
  simp only [List.mem_map] at hmem
  obtain ⟨p, _, rfl⟩ := hmem
  exact finalizeLine_conf_escalates _ _ _ _ hconf

/-! ### C3: a "CS" line with no pack pattern and no auxiliary capability -/

theorem pyOrStr_some (s : String) : pyOrStr (some s) = s := by
  by_cases h : s = "" <;> simp [pyOrStr, Option.filter, h]

/-- `normalize_uom` on a `"CS"` unit whose description yields no pack. -/
theorem normalize_uom_cs_no_pack (raw : RawLineItem)
    (hd2 : parse_pack_from_text (some (pyStrip (pyOrStr raw.description))) = none) :
    normalize_uom (some "CS") (some (pyOrStr raw.description))
      = ⟨"EA", none, 1/2, true⟩ := by
  simp only [normalize_uom, pyOrStr_some, hd2]
  decide

/-- `price_per_base_unit` for a `"CS"` unit with unknown pack: the naive
per-quantity price is returned with the unsafe flag, not `None`. -/
theorem price_cs_pack_unknown (e q : ℚ) (hepos : 0 < e) (hq : 0 < q) :
    price_per_base_unit (some e) q (some "CS") none true = (some (e / q), true) := by
  have hkey : normalize_uom_key (pyUpper (pyStrip (pyOrStr (some "CS")))) = some "CS" := by
    decide
  have h1 : ¬ e ≤ 0 := not_le.mpr hepos
  have h2 : ¬ q ≤ 0 := not_le.mpr hq
  simp only [price_per_base_unit, hkey, h1, h2, decide_False,
    Bool.not_true, Bool.false_or, if_false]
  have hfix : fixedMultOf (some "CS") = none := by decide
  have hmem : (memS (some "CS") UOM_PACK_CONTAINER || memS (some "CS") UOM_COUNT) = true := by
    decide
  simp only [hfix, hmem, if_true, if_pos, h2]
  simp [h2]

/-- **C3, counterexample.** A `"CS"` line with no pack pattern and the
auxiliary capability disabled is escalated, but its
`price_per_base_unit` is `extended/quantity = 5.0`, not `None`. -/
theorem C3_counterexample :
    rawCS.original_uom = some "CS" ∧
    parse_pack_from_text (some (pyOrStr rawCS.description)) = none ∧
    capsCS.use_lookup_agent = false ∧
    (process_invoice_pdf "" capsCS).line_items.headI.escalation_flag = true ∧
    (process_invoice_pdf "" capsCS).line_items.headI.price_per_base_unit = some 5 ∧
    (process_invoice_pdf "" capsCS).line_items.headI.price_per_base_unit ≠ none := by
  refine ⟨by decide, by decide, by decide, by decide, by decide, by decide⟩

/-- **C3, amended.** A candidate line with unit `"CS"`, no pack pattern
in its text and no auxiliary resolution for its index is finalized with
`escalation_flag = true`, but with `price_per_base_unit` equal to the
rounded `extended_price / quantity` (the conversion is merely flagged
unsafe), provided extended price and quantity are positive. -/
theorem C3_cs_no_pack_escalates (supplier : String)
    (lr : List (ℕ × LookupResult)) (i : ℕ) (raw : RawLineItem) (e : ℚ)
    (huom : raw.original_uom = some "CS")
    (hd : parse_pack_from_text (some (pyOrStr raw.description)) = none)
    (hd2 : parse_pack_from_text (some (pyStrip (pyOrStr raw.description))) = none)
    (hlk : lr.lookup i = none)
    (he : raw.extended_price = some e) (hepos : 0 < e) (hq : 0 < raw.quantity) :
    (finalizeLine supplier lr i raw).escalation_flag = true ∧
    (finalizeLine supplier lr i raw).price_per_base_unit
      = some (pyRound (e / raw.quantity) 4) := by
  have hmeas : is_measurable_uom (some "CS") = false := by decide
  have hcore : finalizeCore lr i raw
      = ("EA", none, 1/2 * raw.line_confidence, true, some (e / raw.quantity)) := by
    have hcont : UOM_PACK_CONTAINER.contains (pyUpper (pyStrip (pyOrStr (some "CS")))) = true := by
      decide
    simp only [finalizeCore, huom, hlk, hd, hmeas, he,
      normalize_uom_cs_no_pack raw hd2, parse_pack_from_description, pyOrOptInt, hcont]
    simp [price_cs_pack_unknown e raw.quantity hepos hq]
  constructor
  · show (if (finalizeCore lr i raw).2.2.1 < 3/5 then true
        else (finalizeCore lr i raw).2.2.2.1) = true
    rw [hcore]
    by_cases hc : (1/2 : ℚ) * raw.line_confidence < 3/5 <;> simp [hc]
  · show ((finalizeCore lr i raw).2.2.2.2.map (fun p => pyRound p 4)) = _
    rw [hcore]
    rfl

/-- **C3, witness.** -/
theorem C3_cs_no_pack_escalates_witness :
    (finalizeLine "S" [] 0 rawCS).escalation_flag = true ∧
    (finalizeLine "S" [] 0 rawCS).price_per_base_unit
      = some (pyRound (10 / rawCS.quantity) 4) :=
  C3_cs_no_pack_escalates "S" [] 0 rawCS 10 (by decide) (by decide) (by decide)
    (by decide) (by decide) (by decide) (by decide)

/-- **C1, witness.** -/
theorem C1_low_confidence_escalates_witness :
    ((process_invoice_pdf "" capsLowConf).line_items.headI
        ∈ (process_invoice_pdf "" capsLowConf).line_items) ∧
    (process_invoice_pdf "" capsLowConf).line_items.headI.confidence_score < 3/5 ∧
    (process_invoice_pdf "" capsLowConf).line_items.headI.escalation_flag = true :=
  ⟨by decide, by decide,
   C1_low_confidence_escalates "" capsLowConf _ (by decide) (by decide)⟩


/-! ### C7: batch auxiliary resolution is total over requested indices -/
theorem lookup_isSome_iff_mem {α : Type} (d : List (ℕ × α)) (k : ℕ) :
    (d.lookup k).isSome ↔ k ∈ d.map Prod.fst := by
  induction d with
  | nil => simp
  | cons a t ih =>
    simp only [List.lookup, List.map_cons, List.mem_cons]
    by_cases h : k = a.1
    · simp [h]
    · have hb : (k == a.1) = false := by simpa using h
      simp [hb, ih, h]

theorem dictInsert_keys {α : Type} (d : List (ℕ × α)) (k : ℕ) (v : α) :
    (dictInsert d k v).map Prod.fst =
      if k ∈ d.map Prod.fst then d.map Prod.fst else d.map Prod.fst ++ [k] := by
  unfold dictInsert
  split
  · next h =>
    rw [if_pos ((lookup_isSome_iff_mem d k).1 h)]
    rw [List.map_map]
    have hf : (Prod.fst ∘ fun p : ℕ × α => if p.1 = k then (k, v) else p)
        = Prod.fst := by
      funext p
      by_cases hp : p.1 = k <;> simp [hp]
    rw [hf]
  · next h =>
    have hk : k ∉ d.map Prod.fst := fun hmem =>
      h ((lookup_isSome_iff_mem d k).2 hmem)
    rw [if_neg hk]
    simp

theorem dictInsert_nodup {α : Type} (d : List (ℕ × α)) (k : ℕ) (v : α)
    (h : (d.map Prod.fst).Nodup) : ((dictInsert d k v).map Prod.fst).Nodup := by
  rw [dictInsert_keys]
  split
  · exact h
  · next h2 => simp [List.nodup_append, h, h2]

theorem mem_dictInsert_self {α : Type} (d : List (ℕ × α)) (k : ℕ) (v : α) :
    k ∈ (dictInsert d k v).map Prod.fst := by
  rw [dictInsert_keys]; split <;> simp [*]

theorem mem_dictInsert_of_mem {α : Type} (d : List (ℕ × α)) (k : ℕ) (v : α)
    (k' : ℕ) (h : k' ∈ d.map Prod.fst) : k' ∈ (dictInsert d k v).map Prod.fst := by
  rw [dictInsert_keys]; split <;> simp [h]

theorem mem_of_mem_dictInsert {α : Type} (d : List (ℕ × α)) (k : ℕ) (v : α)
    (k' : ℕ) (h : k' ∈ (dictInsert d k v).map Prod.fst) :
    k' = k ∨ k' ∈ d.map Prod.fst := by
  rw [dictInsert_keys] at h
  split at h
  · exact Or.inr h
  · rcases List.mem_append.mp h with h1 | h1
    · exact Or.inr h1
    · simp at h1; exact Or.inl h1

theorem defaultBatchAux_nodup : ∀ (items : List BatchItem) (acc : List (ℕ × LookupResult)),
    (acc.map Prod.fst).Nodup → ((defaultBatchAux items acc).map Prod.fst).Nodup := by
  intro items
  induction items with
  | nil => intro acc h; exact h
  | cons it rest ih =>
    intro acc h
    exact ih _ (dictInsert_nodup _ _ _ h)

theorem defaultBatchAux_mem : ∀ (items : List BatchItem) (acc : List (ℕ × LookupResult)) (k : ℕ),
    (k ∈ acc.map Prod.fst ∨ k ∈ items.map Prod.fst) →
    k ∈ (defaultBatchAux items acc).map Prod.fst := by
  intro items
  induction items with
  | nil => intro acc k h; simpa using h.resolve_right (by simp)
  | cons it rest ih =>
    intro acc k h
    rcases h with h | h
    · exact ih _ _ (Or.inl (mem_dictInsert_of_mem _ _ _ _ h))
    · rcases List.mem_cons.mp h with h1 | h1
      · subst h1; exact ih _ _ (Or.inl (mem_dictInsert_self _ _ _))
      · exact ih _ _ (Or.inr h1)

theorem defaultBatchAux_mem_rev : ∀ (items : List BatchItem) (acc : List (ℕ × LookupResult)) (k : ℕ),
    k ∈ (defaultBatchAux items acc).map Prod.fst →
    k ∈ acc.map Prod.fst ∨ k ∈ items.map Prod.fst := by
  intro items
  induction items with
  | nil => intro acc k h; exact Or.inl h
  | cons it rest ih =>
    intro acc k h
    rcases ih _ _ h with h1 | h1
    · rcases mem_of_mem_dictInsert _ _ _ _ h1 with h2 | h2
      · subst h2; exact Or.inr (by simp)
      · exact Or.inl h2
    · exact Or.inr (by simp [h1])

theorem batchBuild_props : ∀ (items : List BatchItem) (arr : List JObj) (i : ℕ)
    (acc d : List (ℕ × LookupResult)), batchBuild items arr i acc = .ok d →
    ((acc.map Prod.fst).Nodup → (d.map Prod.fst).Nodup) ∧
    (∀ k, (k ∈ acc.map Prod.fst ∨ k ∈ items.map Prod.fst) → k ∈ d.map Prod.fst) ∧
    (∀ k, k ∈ d.map Prod.fst → k ∈ acc.map Prod.fst ∨ k ∈ items.map Prod.fst) := by
  intro items
  induction items with
  | nil =>
    intro arr i acc d h
    simp only [batchBuild] at h
    cases h
    exact ⟨fun h => h, fun k hk => by simpa using hk.resolve_right (by simp),
      fun k hk => Or.inl hk⟩
  | cons it rest ih =>
    intro arr i acc d h
    simp only [batchBuild] at h
    split at h
    · -- i < arr.length
      split at h
      · exact absurd h (by simp)
      · next conf _ =>
        obtain ⟨h1, h2, h3⟩ := ih _ _ _ _ h
        refine ⟨fun hn => h1 (dictInsert_nodup _ _ _ hn), ?_, ?_⟩
        · intro k hk
          rcases hk with hk | hk
          · exact h2 k (Or.inl (mem_dictInsert_of_mem _ _ _ _ hk))
          · rcases List.mem_cons.mp hk with h4 | h4
            · subst h4; exact h2 _ (Or.inl (mem_dictInsert_self _ _ _))
            · exact h2 k (Or.inr h4)
        · intro k hk
          rcases h3 k hk with h4 | h4
          · rcases mem_of_mem_dictInsert _ _ _ _ h4 with h5 | h5
            · subst h5; exact Or.inr (by simp)
            · exact Or.inl h5
          · exact Or.inr (by simp [h4])
    · obtain ⟨h1, h2, h3⟩ := ih _ _ _ _ h
      refine ⟨fun hn => h1 (dictInsert_nodup _ _ _ hn), ?_, ?_⟩
      · intro k hk
        rcases hk with hk | hk
        · exact h2 k (Or.inl (mem_dictInsert_of_mem _ _ _ _ hk))
        · rcases List.mem_cons.mp hk with h4 | h4
          · subst h4; exact h2 _ (Or.inl (mem_dictInsert_self _ _ _))
          · exact h2 k (Or.inr h4)
      · intro k hk
        rcases h3 k hk with h4 | h4
        · rcases mem_of_mem_dictInsert _ _ _ _ h4 with h5 | h5
          · subst h5; exact Or.inr (by simp)
          · exact Or.inl h5
        · exact Or.inr (by simp [h4])

theorem batchFill_props : ∀ (items : List BatchItem) (acc : List (ℕ × LookupResult)),
    ((acc.map Prod.fst).Nodup → ((batchFill items acc).map Prod.fst).Nodup) ∧
    (∀ k, (k ∈ acc.map Prod.fst ∨ k ∈ items.map Prod.fst) →
      k ∈ (batchFill items acc).map Prod.fst) ∧
    (∀ k, k ∈ (batchFill items acc).map Prod.fst →
      k ∈ acc.map Prod.fst ∨ k ∈ items.map Prod.fst) := by
  intro items
  induction items with
  | nil =>
    intro acc
    exact ⟨fun h => h, fun k hk => by simpa using hk.resolve_right (by simp),
      fun k hk => Or.inl hk⟩
  | cons it rest ih =>
    intro acc
    simp only [batchFill]
    split
    · next hlk =>
      obtain ⟨h1, h2, h3⟩ := ih acc
      refine ⟨h1, ?_, ?_⟩
      · intro k hk
        rcases hk with hk | hk
        · exact h2 k (Or.inl hk)
        · rcases List.mem_cons.mp hk with h4 | h4
          · subst h4
            exact h2 _ (Or.inl ((lookup_isSome_iff_mem _ _).1 hlk))
          · exact h2 k (Or.inr h4)
      · intro k hk
        rcases h3 k hk with h4 | h4
        · exact Or.inl h4
        · exact Or.inr (by simp [h4])
    · obtain ⟨h1, h2, h3⟩ := ih (dictInsert acc it.1 defaultLookup)
      refine ⟨fun hn => h1 (dictInsert_nodup _ _ _ hn), ?_, ?_⟩
      · intro k hk
        rcases hk with hk | hk
        · exact h2 k (Or.inl (mem_dictInsert_of_mem _ _ _ _ hk))
        · rcases List.mem_cons.mp hk with h4 | h4
          · subst h4; exact h2 _ (Or.inl (mem_dictInsert_self _ _ _))
          · exact h2 k (Or.inr h4)
      · intro k hk
        rcases h3 k hk with h4 | h4
        · rcases mem_of_mem_dictInsert _ _ _ _ h4 with h5 | h5
          · subst h5; exact Or.inr (by simp)
          · exact Or.inl h5
        · exact Or.inr (by simp [h4])

/-- Totality of the batch map: every requested index present,
duplicate-free keys, no unrequested keys. -/
theorem batch_call_total_aux (items : List BatchItem) (env : BatchEnv) :
    (∀ it ∈ items, ((batch_call_llm_for_uom items env).lookup it.1).isSome) ∧
    ((batch_call_llm_for_uom items env).map Prod.fst).Nodup ∧
    (∀ k ∈ (batch_call_llm_for_uom items env).map Prod.fst,
      k ∈ items.map Prod.fst) := by
  have key : ∀ m : List (ℕ × LookupResult),
      ((∀ k, (k ∈ ([] : List (ℕ × LookupResult)).map Prod.fst ∨ k ∈ items.map Prod.fst) → k ∈ m.map Prod.fst)) →
      ∀ it ∈ items, (m.lookup it.1).isSome := by
    intro m hm it hit
    exact (lookup_isSome_iff_mem _ _).2 (hm it.1 (Or.inr (List.mem_map.mpr ⟨it, hit, rfl⟩)))
  cases env with
  | noClient =>
    obtain h2 := defaultBatchAux_nodup items [] (by simp)
    have hmem := fun k hk => defaultBatchAux_mem items [] k hk
    have hrev := fun k hk => defaultBatchAux_mem_rev items [] k hk
    exact ⟨key _ hmem, h2, fun k hk => by simpa using hrev k hk⟩
  | callFailed =>
    obtain h2 := defaultBatchAux_nodup items [] (by simp)
    have hmem := fun k hk => defaultBatchAux_mem items [] k hk
    have hrev := fun k hk => defaultBatchAux_mem_rev items [] k hk
    exact ⟨key _ hmem, h2, fun k hk => by simpa using hrev k hk⟩
  | response data =>
    simp only [batch_call_llm_for_uom]
    split
    · next hemp =>
      obtain h2 := defaultBatchAux_nodup items [] (by simp)
      have hmem := fun k hk => defaultBatchAux_mem items [] k hk
      have hrev := fun k hk => defaultBatchAux_mem_rev items [] k hk
      exact ⟨key _ hmem, h2, fun k hk => by simpa using hrev k hk⟩
    · split
      · next d hd =>
        -- error case: default map
        obtain h2 := defaultBatchAux_nodup items [] (by simp)
        have hmem := fun k hk => defaultBatchAux_mem items [] k hk
        have hrev := fun k hk => defaultBatchAux_mem_rev items [] k hk
        exact ⟨key _ hmem, h2, fun k hk => by simpa using hrev k hk⟩
      · next d hd =>
        obtain ⟨b1, b2, b3⟩ := batchBuild_props items (data.getD []) 0 [] d hd
        obtain ⟨f1, f2, f3⟩ := batchFill_props items d
        refine ⟨?_, f1 (b1 (by simp)), ?_⟩
        · intro it hit
          exact (lookup_isSome_iff_mem _ _).2
            (f2 it.1 (Or.inr (List.mem_map.mpr ⟨it, hit, rfl⟩)))
        · intro k hk
          rcases f3 k hk with h4 | h4
          · rcases b3 k h4 with h5 | h5
            · simp at h5
            · exact h5
          · exact h4

theorem lookup_map_replace_ne {α : Type} (d : List (ℕ × α)) (k k' : ℕ) (v : α)
    (hne : k' ≠ k) :
    (d.map (fun p => if p.1 = k then (k, v) else p)).lookup k' = d.lookup k' := by
  induction d with
  | nil => rfl
  | cons a t ih =>
    rw [List.map_cons]
    by_cases ha : a.1 = k
    · rw [if_pos ha]
      have hk' : (k' == k) = false := by simpa using hne
      have hk'a : (k' == a.1) = false := by simp [ha, hk']
      simp only [List.lookup, hk', hk'a]
      exact ih
    · rw [if_neg ha]
      by_cases hk : k' = a.1
      · have hb : (k' == a.1) = true := by simpa using hk
        simp only [List.lookup, hb]
      · have hkb : (k' == a.1) = false := by simpa using hk
        simp only [List.lookup, hkb]
        exact ih

theorem lookup_map_replace_eq {α : Type} (d : List (ℕ × α)) (k : ℕ) (v : α)
    (h : (d.lookup k).isSome) :
    (d.map (fun p => if p.1 = k then (k, v) else p)).lookup k = some v := by
  induction d with
  | nil => simp at h
  | cons a t ih =>
    rw [List.map_cons]
    by_cases ha : a.1 = k
    · rw [if_pos ha]
      simp [List.lookup]
    · rw [if_neg ha]
      have hkb : (k == a.1) = false := by
        simp
        intro he; exact ha he.symm
      simp only [List.lookup, hkb] at h
      simp only [List.lookup, hkb]
      exact ih h

theorem lookup_append_single_eq {α : Type} (d : List (ℕ × α)) (k : ℕ) (v : α)
    (h : d.lookup k = none) : (d ++ [(k, v)]).lookup k = some v := by
  induction d with
  | nil => simp [List.lookup]
  | cons a t ih =>
    by_cases hk : k = a.1
    · have hb : (k == a.1) = true := by simpa using hk
      simp [List.lookup, hb] at h
    · have hkb : (k == a.1) = false := by simpa using hk
      simp only [List.lookup, hkb] at h
      rw [List.cons_append]
      simp only [List.lookup, hkb]
      exact ih h

theorem lookup_append_single_ne {α : Type} (d : List (ℕ × α)) (k k' : ℕ) (v : α)
    (hne : k' ≠ k) : (d ++ [(k, v)]).lookup k' = d.lookup k' := by
  induction d with
  | nil =>
    have hkb : (k' == k) = false := by simpa using hne
    simp [List.lookup, hkb]
  | cons a t ih =>
    rw [List.cons_append]
    by_cases hk : k' = a.1
    · have hb : (k' == a.1) = true := by simpa using hk
      simp only [List.lookup, hb]
    · have hkb : (k' == a.1) = false := by simpa using hk
      simp only [List.lookup, hkb]
      exact ih

/-- Python dict assignment: the looked-up value after `d[k] = v`. -/
theorem dictInsert_lookup {α : Type} (d : List (ℕ × α)) (k k' : ℕ) (v : α) :
    (dictInsert d k v).lookup k' = if k' = k then some v else d.lookup k' := by
  unfold dictInsert
  split
  · next h =>
    by_cases hk : k' = k
    · subst hk; rw [if_pos rfl]; exact lookup_map_replace_eq d k' v h
    · rw [if_neg hk]; exact lookup_map_replace_ne d k k' v hk
  · next h =>
    have hnone : d.lookup k = none := by
      rcases hl : d.lookup k with _ | w
      · rfl
      · rw [hl] at h; simp at h
    by_cases hk : k' = k
    · subst hk; rw [if_pos rfl]; exact lookup_append_single_eq d k' v hnone
    · rw [if_neg hk]; exact lookup_append_single_ne d k k' v hk

/-- Once the loop has run past the response array, every later write is
the default, so entries made in that regime stay the default. -/
theorem batchBuild_high_default : ∀ (items : List BatchItem) (arr : List JObj)
    (i : ℕ) (acc d : List (ℕ × LookupResult)),
    arr.length ≤ i → batchBuild items arr i acc = .ok d →
    (∀ k, acc.lookup k = some defaultLookup → d.lookup k = some defaultLookup) ∧
    (∀ j, ∀ hj : j < items.length,
      d.lookup (items.get ⟨j, hj⟩).1 = some defaultLookup) := by
  intro items
  induction items with
  | nil =>
    intro arr i acc d _ h
    simp only [batchBuild] at h
    cases h
    exact ⟨fun k hk => hk, fun j hj => absurd hj (by simp)⟩
  | cons it rest ih =>
    intro arr i acc d hi h
    simp only [batchBuild] at h
    split at h
    · next hlt => omega
    · obtain ⟨pres, all⟩ := ih arr (i + 1) _ d (by omega) h
      constructor
      · intro k hk
        apply pres
        rw [dictInsert_lookup]
        split
        · rfl
        · exact hk
      · intro j hj
        cases j with
        | zero =>
          apply pres
          rw [dictInsert_lookup]
          simp
        | succ j' => exact all j' (by simpa using hj)

/-- A requested position at or beyond the end of the response array ends
up mapped to the low-confidence escalated default. -/
theorem batchBuild_beyond_default : ∀ (items : List BatchItem) (arr : List JObj)
    (i : ℕ) (acc d : List (ℕ × LookupResult)),
    batchBuild items arr i acc = .ok d →
    ∀ j, ∀ hj : j < items.length, arr.length ≤ i + j →
      d.lookup (items.get ⟨j, hj⟩).1 = some defaultLookup := by
  intro items
  induction items with
  | nil => intro arr i acc d h j hj; exact absurd hj (by simp)
  | cons it rest ih =>
    intro arr i acc d h j hj hbeyond
    simp only [batchBuild] at h
    split at h
    · next hlt =>
      split at h
      · exact absurd h (by simp)
      · cases j with
        | zero => omega
        | succ j' =>
          exact ih arr (i + 1) _ d h j' (by simpa using hj) (by omega)
    · next hge =>
      obtain ⟨pres, all⟩ := batchBuild_high_default rest arr (i + 1) _ d (by omega) h
      cases j with
      | zero =>
        apply pres
        rw [dictInsert_lookup]
        simp
      | succ j' => exact all j' (by simpa using hj)

/-- The completion loop never overwrites an entry that is present. -/
theorem batchFill_preserves : ∀ (items : List BatchItem)
    (acc : List (ℕ × LookupResult)) (k : ℕ) (v : LookupResult),
    acc.lookup k = some v → (batchFill items acc).lookup k = some v := by
  intro items
  induction items with
  | nil => intro acc k v h; exact h
  | cons it rest ih =>
    intro acc k v h
    simp only [batchFill]
    split
    · exact ih acc k v h
    · next hnone =>
      apply ih
      rw [dictInsert_lookup]
      split
      · next hk => subst hk; rw [h] at hnone; simp at hnone
      · exact h

/-- Every value stored by the default dict comprehension is the default. -/
theorem defaultBatchAux_lookup_default : ∀ (items : List BatchItem)
    (acc : List (ℕ × LookupResult)),
    (∀ k v, acc.lookup k = some v → v = defaultLookup) →
    ∀ k v, (defaultBatchAux items acc).lookup k = some v → v = defaultLookup := by
  intro items
  induction items with
  | nil => intro acc hacc k v h; exact hacc k v h
  | cons it rest ih =>
    intro acc hacc k v h
    refine ih _ ?_ k v h
    intro k' v' hk'
    rw [dictInsert_lookup] at hk'
    split at hk'
    · exact (Option.some.inj hk').symm
    · exact hacc k' v' hk'

/-- **C7.** For every request list and every state of the external
capability — no client, a failed call, a non-list reply, or an array of
any length including one shorter than the request —
`_batch_call_llm_for_uom` returns a map holding exactly one entry per
requested index: every requested index is present, the keys are
duplicate-free, no unrequested key appears, and a requested position
lying beyond the end of the response array is filled with the
low-confidence escalated default `LookupResult("EA", None, 0.3, True)`. -/
theorem C7_batch_resolution_total (items : List BatchItem) (env : BatchEnv) :
    (∀ it ∈ items, ((batch_call_llm_for_uom items env).lookup it.1).isSome) ∧
    ((batch_call_llm_for_uom items env).map Prod.fst).Nodup ∧
    (∀ k ∈ (batch_call_llm_for_uom items env).map Prod.fst,
      k ∈ items.map Prod.fst) ∧
    (∀ arr, env = .response (some arr) →
      ∀ j, ∀ hj : j < items.length, arr.length ≤ j →
        (batch_call_llm_for_uom items env).lookup (items.get ⟨j, hj⟩).1
          = some defaultLookup) := by
  obtain ⟨h1, h2, h3⟩ := batch_call_total_aux items env
  refine ⟨h1, h2, h3, ?_⟩
  intro arr harr j hj hbeyond
  subst harr
  simp only [batch_call_llm_for_uom]
  split
  · next hemp =>
    exfalso
    cases items with
    | nil => exact absurd hj (by simp)
    | cons a t => simp at hemp
  · have hdefmap : ((defaultBatchMap items).lookup (items.get ⟨j, hj⟩).1)
        = some defaultLookup := by
      have hmem : (items.get ⟨j, hj⟩).1 ∈ items.map Prod.fst :=
        List.mem_map.mpr ⟨items.get ⟨j, hj⟩, List.get_mem _ _ _, rfl⟩
      have hsome := (lookup_isSome_iff_mem (defaultBatchMap items) _).2
        (defaultBatchAux_mem items [] _ (Or.inr hmem))
      obtain ⟨v, hv⟩ := Option.isSome_iff_exists.mp hsome
      have hvd := defaultBatchAux_lookup_default items []
        (by intro k v h; simp [List.lookup] at h) _ v hv
      rw [hv, hvd]
    split
    · exact hdefmap
    · next d hd =>
      simp only [Option.getD_some] at hd
      have hdef := batchBuild_beyond_default items arr 0 [] d hd j hj
        (by simpa using hbeyond)
      exact batchFill_preserves items d _ _ hdef

/-- **C7, witness.** The capability replied with an empty (shorter)
array: index 3, requested at position 1, is present in the returned map
and carries the escalated default `("EA", None, 0.3, True)`. -/
theorem C7_batch_resolution_total_witness :
    ((3, "B", (none : Option String), (none : Option String))
        ∈ [((0 : ℕ), "A", (none : Option String), (none : Option String)),
           (3, "B", none, none)]) ∧
    ((batch_call_llm_for_uom
        [(0, "A", none, none), (3, "B", none, none)]
        (.response (some []))).lookup 3).isSome ∧
    (batch_call_llm_for_uom
        [(0, "A", none, none), (3, "B", none, none)]
        (.response (some []))).lookup 3 = some defaultLookup :=
  ⟨by decide,
   (C7_batch_resolution_total
      [(0, "A", none, none), (3, "B", none, none)]
      (.response (some []))).1 (3, "B", none, none) (by decide),
   (C7_batch_resolution_total
      [(0, "A", none, none), (3, "B", none, none)]
      (.response (some []))).2.2.2 [] rfl 1 (by decide) (by decide)⟩

/-! ### C6 and C10: the dedup and price-filter invariants of the
generic table parser -/

theorem extract_fold_eq : ∀ (lines : List String) (pph : Bool)
    (seen : List (ℚ × Option ℚ)) (acc : List RawLineItem),
    (∀ k, seen.contains k = acc.any (fun y => itemKey y == k)) →
    (lines.foldl (extractStep pph) (seen, acc)).2
      = (lines.filterMap (lineKept pph)).foldl firstStep acc := by
  intro lines
  induction lines with
  | nil => intro pph seen acc _; rfl
  | cons l rest ih =>
    intro pph seen acc hinv
    simp only [List.foldl_cons, List.filterMap_cons]
    rcases hc : lineCandidate pph l with _ | parsed
    · have hstep : extractStep pph (seen, acc) l = (seen, acc) := by
        simp [extractStep, hc]
      have hkept : lineKept pph l = none := by simp [lineKept, hc]
      rw [hstep, hkept]
      exact ih pph seen acc hinv
    · by_cases hk : keepsPrice parsed
      · have hkept : lineKept pph l = some parsed := by simp [lineKept, hc, hk]
        rw [hkept]
        by_cases hseen : itemKey parsed ∈ seen
        · have hb : seen.contains (itemKey parsed) = true := by simpa using hseen
          have hstep : extractStep pph (seen, acc) l = (seen, acc) := by
            simp [extractStep, hc, hk, hseen]
          have hany : acc.any (fun y => itemKey y == itemKey parsed) = true := by
            rw [← hinv]; exact hb
          rw [hstep]
          simp only [List.foldl_cons, firstStep, hany, if_true]
          exact ih pph seen acc hinv
        · have hb : seen.contains (itemKey parsed) = false := by simpa using hseen
          have hstep : extractStep pph (seen, acc) l
              = (itemKey parsed :: seen, acc ++ [parsed]) := by
            simp [extractStep, hc, hk, hseen]
          have hany : acc.any (fun y => itemKey y == itemKey parsed) = false := by
            rw [← hinv]; exact hb
          rw [hstep]
          simp only [List.foldl_cons, firstStep, hany, if_false, Bool.false_eq_true]
          apply ih
          intro k
          by_cases hkk : k = itemKey parsed
          · subst hkk
            simp [List.any_append, hany]
          · have h1 : (itemKey parsed :: seen).contains k = seen.contains k := by
              simp [List.contains_cons]
              intro he; exact absurd he hkk
            rw [h1, hinv k]
            simp [List.any_append]
            intro he; exact absurd he.symm hkk
      · have hkept : lineKept pph l = none := by simp [lineKept, hc, hk]
        have hstep : extractStep pph (seen, acc) l = (seen, acc) := by
          simp [extractStep, hc, hk]
        rw [hstep, hkept]
        exact ih pph seen acc hinv

theorem extract_fold_nodup : ∀ (lines : List String) (pph : Bool)
    (seen : List (ℚ × Option ℚ)) (acc : List RawLineItem),
    (∀ k, seen.contains k = acc.any (fun y => itemKey y == k)) →
    (acc.map itemKey).Nodup →
    (((lines.foldl (extractStep pph) (seen, acc)).2).map itemKey).Nodup := by
  intro lines
  induction lines with
  | nil => intro pph seen acc _ hnd; exact hnd
  | cons l rest ih =>
    intro pph seen acc hinv hnd
    simp only [List.foldl_cons]
    rcases hc : lineCandidate pph l with _ | parsed
    · rw [show extractStep pph (seen, acc) l = (seen, acc) from by simp [extractStep, hc]]
      exact ih pph seen acc hinv hnd
    · by_cases hk : keepsPrice parsed
      · by_cases hseen : itemKey parsed ∈ seen
        · rw [show extractStep pph (seen, acc) l = (seen, acc) from by
            simp [extractStep, hc, hk, hseen]]
          exact ih pph seen acc hinv hnd
        · have hb : seen.contains (itemKey parsed) = false := by simpa using hseen
          have hany : acc.any (fun y => itemKey y == itemKey parsed) = false := by
            rw [← hinv]; exact hb
          rw [show extractStep pph (seen, acc) l
              = (itemKey parsed :: seen, acc ++ [parsed]) from by
            simp [extractStep, hc, hk, hseen]]
          apply ih
          · intro k
            by_cases hkk : k = itemKey parsed
            · subst hkk
              simp [List.any_append, hany]
            · have h1 : (itemKey parsed :: seen).contains k = seen.contains k := by
                simp [List.contains_cons]
                intro he; exact absurd he hkk
              rw [h1, hinv k]
              simp [List.any_append]
              intro he; exact absurd he.symm hkk
          · have hnotmem : itemKey parsed ∉ acc.map itemKey := by
              intro hmem
              obtain ⟨y, hy, hky⟩ := List.mem_map.mp hmem
              have : acc.any (fun y => itemKey y == itemKey parsed) = true :=
                List.any_eq_true.mpr ⟨y, hy, by simp [hky]⟩
              rw [this] at hany; exact absurd hany (by simp)
            simp [List.nodup_append, hnd, hnotmem]
      · rw [show extractStep pph (seen, acc) l = (seen, acc) from by
          simp [extractStep, hc, hk]]
        exact ih pph seen acc hinv hnd

theorem keepsPrice_pos (x : RawLineItem) (h : keepsPrice x = true) :
    ∃ p, x.extended_price = some p ∧ 0 < p := by
  unfold keepsPrice at h
  rcases he : x.extended_price with _ | p
  · rw [he] at h; simp at h
  · rw [he] at h; exact ⟨p, rfl, by simpa using h⟩

theorem extract_fold_pos : ∀ (lines : List String) (pph : Bool)
    (seen : List (ℚ × Option ℚ)) (acc : List RawLineItem),
    (∀ it ∈ acc, ∃ p, it.extended_price = some p ∧ 0 < p) →
    ∀ it ∈ (lines.foldl (extractStep pph) (seen, acc)).2,
      ∃ p, it.extended_price = some p ∧ 0 < p := by
  intro lines
  induction lines with
  | nil => intro pph seen acc hacc; exact hacc
  | cons l rest ih =>
    intro pph seen acc hacc
    simp only [List.foldl_cons]
    rcases hc : lineCandidate pph l with _ | parsed
    · rw [show extractStep pph (seen, acc) l = (seen, acc) from by simp [extractStep, hc]]
      exact ih pph seen acc hacc
    · by_cases hk : keepsPrice parsed
      · by_cases hseen : itemKey parsed ∈ seen
        · rw [show extractStep pph (seen, acc) l = (seen, acc) from by
            simp [extractStep, hc, hk, hseen]]
          exact ih pph seen acc hacc
        · rw [show extractStep pph (seen, acc) l
              = (itemKey parsed :: seen, acc ++ [parsed]) from by
            simp [extractStep, hc, hk, hseen]]
          apply ih
          intro it hit
          rcases List.mem_append.mp hit with h1 | h1
          · exact hacc it h1
          · simp at h1
            subst h1
            exact keepsPrice_pos _ hk
      · rw [show extractStep pph (seen, acc) l = (seen, acc) from by
          simp [extractStep, hc, hk]]
        exact ih pph seen acc hacc

/-- **C6.** `extract_line_items` deduplicates by the
`(quantity, extended_price)` pair: its output is exactly the sequence of
per-line candidates with every later repetition of an already-seen key
dropped (order-preserving, first occurrence retained), and no two output
items share a key. -/
theorem C6_dedup_by_qty_extended (text : String) :
    extract_line_items text = firstByKey (lineCandidates text) ∧
    ((extract_line_items text).map itemKey).Nodup := by
  constructor
  · exact extract_fold_eq (pySplitChar text '\n') (isPricePerHundred text) [] [] (by simp)
  · exact extract_fold_nodup (pySplitChar text '\n') (isPricePerHundred text) [] []
      (by simp) (by simp)

/-- **C10.** Every `RawLineItem` returned by `extract_line_items` has a
present, strictly positive extended price: lines parsing to a missing,
zero or negative extended price are dropped. -/
theorem C10_extended_price_positive (text : String) (it : RawLineItem)
    (h : it ∈ extract_line_items text) :
    ∃ p, it.extended_price = some p ∧ 0 < p :=
  extract_fold_pos (pySplitChar text '\n') (isPricePerHundred text) [] [] (by simp) it h

/-- **C10, witness.** -/
theorem C10_extended_price_positive_witness :
    ∃ p, ((extract_line_items "ITEM AAAA 5 10.00 50.00").headI).extended_price
        = some p ∧ 0 < p :=
  C10_extended_price_positive "ITEM AAAA 5 10.00 50.00" _ (by decide)

/-! ### C9: the column-parser quantity rule -/

theorem chooseQty_eq_find : ∀ (ints : List (ℕ × ℤ)) (np : ℕ) (e u : ℚ),
    chooseQty ints np e u = chooseQtySpecTrunc ints np e u := by
  intro ints
  induction ints with
  | nil => intro np e u; rfl
  | cons p rest ih =>
    intro np e u
    rcases p with ⟨i, v⟩
    by_cases hc : (i : ℤ) < (np : ℤ) - 3 ∧ v ≠ pyTrunc e ∧ v ≠ pyTrunc u
    · obtain ⟨h1, h2, h3⟩ := hc
      have hcbt : ((i : ℤ) < (np : ℤ) - 3 && (v ≠ pyTrunc e) && (v ≠ pyTrunc u) : Bool)
          = true := by
        simp [h1, h2, h3]
      rw [show chooseQty ((i, v) :: rest) np e u = v from by
        simp [chooseQty, h1, h2, h3]]
      simp only [chooseQtySpecTrunc, List.find?, hcbt]
      rfl
    · have hcb : ((i : ℤ) < (np : ℤ) - 3 && (v ≠ pyTrunc e) && (v ≠ pyTrunc u) : Bool)
          = false := by
        rw [not_and_or, not_and_or] at hc
        rcases hc with h | h | h <;> simp [h]
      rw [show chooseQty ((i, v) :: rest) np e u = chooseQty rest np e u from by
        simp [chooseQty, hc]]
      rw [show chooseQtySpecTrunc ((i, v) :: rest) np e u
          = chooseQtySpecTrunc rest np e u from by
        simp only [chooseQtySpecTrunc, List.find?, hcb]]
      exact ih np e u

/-- **C9, counterexample.** With "rounded" read as round-to-nearest the
claimed rule picks quantity 2 on `["AB","2","xx","yy","zz","2.90"]`
(round(2.90) = 3 ≠ 2), but the code compares against the *truncated*
prices (`int(2.90) = 2`), excludes the token and defaults to 1. -/
theorem C9_counterexample :
    chooseQtySpecRounded (collectNums partsC9).1 partsC9.length
      (choosePrices (collectNums partsC9).2 false).1
      (choosePrices (collectNums partsC9).2 false).2 = 2 ∧
    (parse_line_item_from_parts partsC9 false).map RawLineItem.quantity = some 1 :=
  ⟨by decide, by decide⟩

/-- **C9, amended.** The quantity of a line parsed by
`_parse_line_item_from_parts` is the value of the first integer column
lying before the last three columns whose value differs from the
*truncated* (`int()`, not rounded) extended and unit prices; if no such
column exists the quantity is 1. -/
theorem C9_quantity_rule (parts : List String) (pph : Bool) (item : RawLineItem)
    (h : parse_line_item_from_parts parts pph = some item) :
    item.quantity = ((chooseQtySpecTrunc (collectNums parts).1 parts.length
      (choosePrices (collectNums parts).2 pph).1
      (choosePrices (collectNums parts).2 pph).2 : ℤ) : ℚ) := by
  rcases hcol : collectNums parts with ⟨ints, decs⟩
  simp only [parse_line_item_from_parts, hcol] at h
  split at h
  · exact absurd h (by simp)
  · rw [← chooseQty_eq_find]
    have hq := congrArg RawLineItem.quantity (Option.some.inj h)
    rw [← hq]

/-- **C9, witness.** -/
theorem C9_quantity_rule_witness :
    ((parse_line_item_from_parts partsC9 false).getD default).quantity
      = ((chooseQtySpecTrunc (collectNums partsC9).1 partsC9.length
        (choosePrices (collectNums partsC9).2 false).1
        (choosePrices (collectNums partsC9).2 false).2 : ℤ) : ℚ) :=
  C9_quantity_rule partsC9 false _ (by decide)

end InvoicePipeline
